import Mathlib

/-!
Verification development for the road-drawing core of `map-machine`
(`src/map_machine/road.py`).  The Python code is shallowly embedded:
planar points become pairs of real numbers, `numpy` norms become the
Euclidean norm over `ℝ`, optional fields become `Option`, fallible
construction (`ValueError`) becomes `Option`-returning construction, and
the in-place mutation of Python objects becomes explicit state passing
(lists updated with `List.set`, a lane arena for aliased `Lane` objects).

Helpers that live in modules of the repository that are not part of the
sources at hand (`map_machine.vector`, `map_machine.flinger`) are
modelled from the specification and carry a doc comment saying so.
-/

set_option maxRecDepth 4000

/-- A planar point or vector, as produced by `numpy` 2-vectors in the source. -/
abbrev Vec := ℝ × ℝ

/-- Euclidean norm of a 2-vector: `np.linalg.norm` in the source. -/
noncomputable def vnorm (v : Vec) : ℝ := Real.sqrt (v.1 ^ 2 + v.2 ^ 2)

/-- Euclidean distance between two points, `np.linalg.norm (a - b)`. -/
noncomputable def vdist (a b : Vec) : ℝ := vnorm (a - b)

/-- Modelled from the spec: `norm` of `map_machine.vector` (module not in
`src/`), described as `normalize` — the vector divided by its Euclidean
length. -/
noncomputable def vnormalize (v : Vec) : Vec := (vnorm v)⁻¹ • v

theorem vnorm_nonneg (v : Vec) : 0 ≤ vnorm v := Real.sqrt_nonneg _

theorem vnorm_smul (c : ℝ) (v : Vec) : vnorm (c • v) = |c| * vnorm v := by
  unfold vnorm
  have h1 : (c • v).1 = c * v.1 := rfl
  have h2 : (c • v).2 = c * v.2 := rfl
  rw [h1, h2]
  have : (c * v.1) ^ 2 + (c * v.2) ^ 2 = c ^ 2 * (v.1 ^ 2 + v.2 ^ 2) := by ring
  rw [this, Real.sqrt_mul (sq_nonneg c), Real.sqrt_sq_eq_abs]

theorem vnorm_pos_of_ne_zero {v : Vec} (h : v ≠ 0) : 0 < vnorm v := by
  unfold vnorm
  apply Real.sqrt_pos.mpr
  have hv : v.1 ≠ 0 ∨ v.2 ≠ 0 := by
    by_contra hcon
    push_neg at hcon
    exact h (Prod.ext hcon.1 hcon.2)
  rcases hv with h1 | h2
  · have : 0 < v.1 ^ 2 := by positivity
    nlinarith [sq_nonneg v.2]
  · have : 0 < v.2 ^ 2 := by positivity
    nlinarith [sq_nonneg v.1]

theorem vnorm_vnormalize {v : Vec} (h : v ≠ 0) : vnorm (vnormalize v) = 1 := by
  unfold vnormalize
  rw [vnorm_smul]
  have hpos := vnorm_pos_of_ne_zero h
  rw [abs_of_nonneg (by positivity)]
  field_simp

theorem vdist_add_left (p w : Vec) : vdist (p + w) p = vnorm w := by
  unfold vdist
  rw [add_sub_cancel_left]

/-- Road lane specification (`Lane` dataclass in the source). -/
structure Lane where
  width : Option ℚ
  is_forward : Option Bool
  min_speed : Option ℚ
  turn : Option String
  change : Option String
  destination : Option String
deriving DecidableEq

/-- `Lane()` — the dataclass with every field defaulted to `None`. -/
def defaultLane : Lane := ⟨none, none, none, none, none, none⟩

/-- `Lane.get_width`: a lane is 3.7 m wide unless it carries its own width. -/
def Lane.get_width (l : Lane) (scale : ℚ) : ℚ :=
  match l.width with
  | none => 37 / 10 * scale
  | some w => w * scale

/-- State of a `RoadPart` object: the two endpoints and offset vectors fixed
at construction, and the mutable connection fields populated by the
junction resolver. -/
structure RoadPart where
  point_1 : Vec
  point_2 : Vec
  right_vector : Vec
  left_vector : Vec
  right_connection : Option Vec
  left_connection : Option Vec
  right_projection : Option Vec
  left_projection : Option Vec
  left_outer : Option Vec
  right_outer : Option Vec
  point_a : Option Vec
  point_middle : Option Vec

/-- Lines 103–110 of `RoadPart.update`: mirror each set connection across
the segment's own offsets into the opposite projection. -/
def RoadPart.updateProjections (p : RoadPart) : RoadPart :=
  let p1 :=
    match p.left_connection with
    | some lc => { p with right_projection := some (lc + p.right_vector - p.left_vector) }
    | none => p
  match p.right_connection with
  | some rc => { p1 with left_projection := some (rc - p.right_vector + p.left_vector) }
  | none => p1

/-- Lines 111–123 of `RoadPart.update`: when both connections are set,
compare `‖right_connection - point_1‖` with `‖right_projection - point_1‖`
and pick the outer corners, then set `point_middle = right_outer -
right_vector`. -/
noncomputable def RoadPart.updateOuters (p : RoadPart) : RoadPart :=
  match p.left_connection, p.right_connection with
  | some lc, some rc =>
    match p.right_projection, p.left_projection with
    | some rp, some lp =>
      let a := vdist rc p.point_1
      let b := vdist rp p.point_1
      if a > b then
        { p with right_outer := some rc, left_outer := some lp,
                 point_middle := some (rc - p.right_vector) }
      else
        { p with right_outer := some rp, left_outer := some lc,
                 point_middle := some (rp - p.right_vector) }
    | _, _ => p
  | _, _ => p

/-- Lines 125–134 of `RoadPart.update`: clamp `point_middle` to distance
`max_ = 100` from `point_1`, rederiving the outer corners in the clipped
case. -/
noncomputable def RoadPart.updateClip (p : RoadPart) : RoadPart :=
  match p.left_connection, p.right_connection with
  | some _, some _ =>
    match p.point_middle with
    | some pm =>
      if vdist pm p.point_1 > 100 then
        let pa := p.point_1 + (100 : ℝ) • vnormalize (pm - p.point_1)
        { p with point_a := some pa,
                 right_outer := some (pa + p.right_vector),
                 left_outer := some (pa + p.left_vector) }
      else
        { p with point_a := some pm }
    | none => p
  | _, _ => p

/-- `RoadPart.update`, the sequential composition of its three blocks. -/
noncomputable def RoadPart.update (p : RoadPart) : RoadPart :=
  p.updateProjections.updateOuters.updateClip

theorem updateProjections_eq (p : RoadPart) {lc rc : Vec}
    (hl : p.left_connection = some lc) (hr : p.right_connection = some rc) :
    p.updateProjections =
      { p with right_projection := some (lc + p.right_vector - p.left_vector),
               left_projection := some (rc - p.right_vector + p.left_vector) } := by
  unfold RoadPart.updateProjections
  rw [hl, hr]

theorem updateOuters_eq (q : RoadPart) {lc rc rp lp : Vec}
    (hl : q.left_connection = some lc) (hr : q.right_connection = some rc)
    (hrp : q.right_projection = some rp) (hlp : q.left_projection = some lp) :
    q.updateOuters =
      if vdist rc q.point_1 > vdist rp q.point_1 then
        { q with right_outer := some rc, left_outer := some lp,
                 point_middle := some (rc - q.right_vector) }
      else
        { q with right_outer := some rp, left_outer := some lc,
                 point_middle := some (rp - q.right_vector) } := by
  unfold RoadPart.updateOuters
  rw [hl, hr, hrp, hlp]

theorem updateClip_eq (q : RoadPart) {lc rc pm : Vec}
    (hl : q.left_connection = some lc) (hr : q.right_connection = some rc)
    (hpm : q.point_middle = some pm) :
    q.updateClip =
      if vdist pm q.point_1 > 100 then
        { q with point_a := some (q.point_1 + (100 : ℝ) • vnormalize (pm - q.point_1)),
                 right_outer := some ((q.point_1 + (100 : ℝ) • vnormalize (pm - q.point_1)) + q.right_vector),
                 left_outer := some ((q.point_1 + (100 : ℝ) • vnormalize (pm - q.point_1)) + q.left_vector) }
      else
        { q with point_a := some pm } := by
  unfold RoadPart.updateClip
  rw [hl, hr, hpm]

/-- Claim C1.  For a `RoadPart` with both connections set, `update()` computes
`right_projection = left_connection + right_vector - left_vector` and
`left_projection = right_connection - right_vector + left_vector`; in its
pre-clipping stage it picks `right_outer = right_connection`,
`left_outer = left_projection` when `distance(right_connection, point_1) >
distance(right_projection, point_1)` and `right_outer = right_projection`,
`left_outer = left_connection` otherwise, and the pre-clipping anchor
candidate satisfies `point_middle = right_outer - right_vector`; the final
state is the clipping stage applied to that intermediate state, which
leaves the projections and `point_middle` untouched. -/
theorem roadPart_update_both_connections (p : RoadPart) (lc rc : Vec)
    (hl : p.left_connection = some lc) (hr : p.right_connection = some rc) :
    p.update = p.updateProjections.updateOuters.updateClip ∧
    (p.updateProjections.updateOuters).right_projection =
      some (lc + p.right_vector - p.left_vector) ∧
    (p.updateProjections.updateOuters).left_projection =
      some (rc - p.right_vector + p.left_vector) ∧
    (vdist rc p.point_1 > vdist (lc + p.right_vector - p.left_vector) p.point_1 →
      (p.updateProjections.updateOuters).right_outer = some rc ∧
      (p.updateProjections.updateOuters).left_outer =
        some (rc - p.right_vector + p.left_vector) ∧
      (p.updateProjections.updateOuters).point_middle = some (rc - p.right_vector)) ∧
    (¬ vdist rc p.point_1 > vdist (lc + p.right_vector - p.left_vector) p.point_1 →
      (p.updateProjections.updateOuters).right_outer =
        some (lc + p.right_vector - p.left_vector) ∧
      (p.updateProjections.updateOuters).left_outer = some lc ∧
      (p.updateProjections.updateOuters).point_middle =
        some (lc + p.right_vector - p.left_vector - p.right_vector)) ∧
    p.update.right_projection = some (lc + p.right_vector - p.left_vector) ∧
    p.update.left_projection = some (rc - p.right_vector + p.left_vector) ∧
    p.update.point_middle = (p.updateProjections.updateOuters).point_middle := by
  have hproj := updateProjections_eq p hl hr
  set rp := lc + p.right_vector - p.left_vector with hrpdef
  set lp := rc - p.right_vector + p.left_vector with hlpdef
  have houter := @updateOuters_eq p.updateProjections lc rc rp lp
    (by rw [hproj]; exact hl) (by rw [hproj]; exact hr)
    (by rw [hproj]) (by rw [hproj])
  have hpt1 : p.updateProjections.point_1 = p.point_1 := by rw [hproj]
  have hrv : p.updateProjections.right_vector = p.right_vector := by rw [hproj]
  rw [hpt1, hrv] at houter
  by_cases hcmp : vdist rc p.point_1 > vdist rp p.point_1
  · rw [if_pos hcmp] at houter
    have hlc2 : (p.updateProjections.updateOuters).left_connection = some lc := by
      rw [houter, hproj]; exact hl
    have hrc2 : (p.updateProjections.updateOuters).right_connection = some rc := by
      rw [houter, hproj]; exact hr
    have hpm2 : (p.updateProjections.updateOuters).point_middle =
        some (rc - p.right_vector) := by rw [houter]
    have hclip := updateClip_eq (p.updateProjections.updateOuters) hlc2 hrc2 hpm2
    refine ⟨rfl, ?_, ?_, fun _ => ⟨?_, ?_, ?_⟩, fun hc => absurd hcmp hc, ?_, ?_, ?_⟩
    · rw [houter, hproj]
    · rw [houter, hproj]
    · rw [houter]
    · rw [houter]
    · rw [houter]
    · show (p.updateProjections.updateOuters.updateClip).right_projection = some rp
      rw [hclip]
      split <;> rw [houter, hproj]
    · show (p.updateProjections.updateOuters.updateClip).left_projection = some lp
      rw [hclip]
      split <;> rw [houter, hproj]
    · show (p.updateProjections.updateOuters.updateClip).point_middle =
        (p.updateProjections.updateOuters).point_middle
      rw [hclip]
      split <;> rfl
  · rw [if_neg hcmp] at houter
    have hlc2 : (p.updateProjections.updateOuters).left_connection = some lc := by
      rw [houter, hproj]; exact hl
    have hrc2 : (p.updateProjections.updateOuters).right_connection = some rc := by
      rw [houter, hproj]; exact hr
    have hpm2 : (p.updateProjections.updateOuters).point_middle =
        some (rp - p.right_vector) := by rw [houter]
    have hclip := updateClip_eq (p.updateProjections.updateOuters) hlc2 hrc2 hpm2
    refine ⟨rfl, ?_, ?_, fun hc => absurd hc hcmp, fun _ => ⟨?_, ?_, ?_⟩, ?_, ?_, ?_⟩
    · rw [houter, hproj]
    · rw [houter, hproj]
    · rw [houter]
    · rw [houter]
    · rw [houter]
    · show (p.updateProjections.updateOuters.updateClip).right_projection = some rp
      rw [hclip]
      split <;> rw [houter, hproj]
    · show (p.updateProjections.updateOuters.updateClip).left_projection = some lp
      rw [hclip]
      split <;> rw [houter, hproj]
    · show (p.updateProjections.updateOuters.updateClip).point_middle =
        (p.updateProjections.updateOuters).point_middle
      rw [hclip]
      split <;> rfl

theorem updateOuters_stage_fields (p : RoadPart) (lc rc : Vec)
    (hl : p.left_connection = some lc) (hr : p.right_connection = some rc) :
    ∃ pm, (p.updateProjections.updateOuters).point_middle = some pm ∧
      (p.updateProjections.updateOuters).left_connection = some lc ∧
      (p.updateProjections.updateOuters).right_connection = some rc ∧
      (p.updateProjections.updateOuters).point_1 = p.point_1 ∧
      (p.updateProjections.updateOuters).right_vector = p.right_vector ∧
      (p.updateProjections.updateOuters).left_vector = p.left_vector := by
  have hproj := updateProjections_eq p hl hr
  have houter := @updateOuters_eq p.updateProjections lc rc
    (lc + p.right_vector - p.left_vector)
    (rc - p.right_vector + p.left_vector)
    (by rw [hproj]; exact hl) (by rw [hproj]; exact hr)
    (by rw [hproj]) (by rw [hproj])
  by_cases hcmp : vdist rc p.updateProjections.point_1 >
      vdist (lc + p.right_vector - p.left_vector) p.updateProjections.point_1
  · rw [if_pos hcmp] at houter
    exact ⟨rc - p.updateProjections.right_vector, by rw [houter],
      by rw [houter, hproj]; exact hl, by rw [houter, hproj]; exact hr,
      by rw [houter, hproj], by rw [houter, hproj], by rw [houter, hproj]⟩
  · rw [if_neg hcmp] at houter
    exact ⟨lc + p.right_vector - p.left_vector - p.updateProjections.right_vector,
      by rw [houter],
      by rw [houter, hproj]; exact hl, by rw [houter, hproj]; exact hr,
      by rw [houter, hproj], by rw [houter, hproj], by rw [houter, hproj]⟩

theorem vnorm_zero_vec : vnorm (0 : Vec) = 0 := by
  unfold vnorm
  norm_num

/-- Claim C2.  For a `RoadPart` with both connections set, after `update()`
the anchor `point_a` is within distance 100 of `point_1`; it equals the
un-clipped candidate `point_middle` whenever that candidate is within
distance 100 of `point_1`, and otherwise equals
`point_1 + 100 * normalize(point_middle - point_1)`, with `right_outer`
and `left_outer` rederived as `anchor + right_vector` and
`anchor + left_vector` in the clipped case. -/
theorem roadPart_update_anchor (p : RoadPart) (lc rc : Vec)
    (hl : p.left_connection = some lc) (hr : p.right_connection = some rc) :
    ∃ pm, p.update.point_middle = some pm ∧
      (vdist pm p.point_1 ≤ 100 → p.update.point_a = some pm) ∧
      (vdist pm p.point_1 > 100 →
        p.update.point_a = some (p.point_1 + (100 : ℝ) • vnormalize (pm - p.point_1)) ∧
        p.update.right_outer =
          some (p.point_1 + (100 : ℝ) • vnormalize (pm - p.point_1) + p.right_vector) ∧
        p.update.left_outer =
          some (p.point_1 + (100 : ℝ) • vnormalize (pm - p.point_1) + p.left_vector)) ∧
      (∀ pa, p.update.point_a = some pa → vdist pa p.point_1 ≤ 100) := by
  obtain ⟨pm, hpm, hlc2, hrc2, hp1, hrv, hlv⟩ := updateOuters_stage_fields p lc rc hl hr
  have hclip := updateClip_eq (p.updateProjections.updateOuters) hlc2 hrc2 hpm
  rw [hp1, hrv, hlv] at hclip
  have hupd : p.update = (p.updateProjections.updateOuters).updateClip := rfl
  by_cases hc : vdist pm p.point_1 > 100
  · rw [if_pos hc] at hclip
    have hne : pm - p.point_1 ≠ 0 := by
      intro h0
      have : vdist pm p.point_1 = 0 := by
        show vnorm (pm - p.point_1) = 0
        rw [h0, vnorm_zero_vec]
      rw [this] at hc
      norm_num at hc
    refine ⟨pm, ?_, ?_, fun _ => ⟨?_, ?_, ?_⟩, ?_⟩
    · rw [hupd, hclip]; exact hpm
    · intro hle; exact absurd hc (not_lt.mpr hle)
    · rw [hupd, hclip]
    · rw [hupd, hclip]
    · rw [hupd, hclip]
    · intro pa hpa
      rw [hupd, hclip] at hpa
      have hpa2 : pa = p.point_1 + (100 : ℝ) • vnormalize (pm - p.point_1) :=
        (Option.some.inj hpa).symm
      rw [hpa2, vdist_add_left, vnorm_smul, vnorm_vnormalize hne]
      norm_num
  · rw [if_neg hc] at hclip
    push_neg at hc
    refine ⟨pm, ?_, fun _ => ?_, fun hgt => absurd hgt (not_lt.mpr hc), ?_⟩
    · rw [hupd, hclip]; exact hpm
    · rw [hupd, hclip]
    · intro pa hpa
      rw [hupd, hclip] at hpa
      have hpa2 : pa = pm := (Option.some.inj hpa).symm
      rw [hpa2]; exact hc

/-- A concrete road part with both connections set, used to witness C1. -/
noncomputable def c1Part : RoadPart :=
  { point_1 := (0, 0), point_2 := (1, 0), right_vector := (0, 1), left_vector := (0, -1),
    right_connection := some (300, 1), left_connection := some (200, -1),
    right_projection := none, left_projection := none, left_outer := none,
    right_outer := none, point_a := none, point_middle := none }

theorem roadPart_update_both_connections_witness :
    c1Part.left_connection = some ((200 : ℝ), (-1 : ℝ)) ∧
    c1Part.right_connection = some ((300 : ℝ), (1 : ℝ)) ∧
    c1Part.update.right_projection =
      some (((200 : ℝ), (-1 : ℝ)) + ((0 : ℝ), (1 : ℝ)) - ((0 : ℝ), (-1 : ℝ))) :=
  ⟨rfl, rfl,
    (roadPart_update_both_connections c1Part (200, -1) (300, 1) rfl rfl).2.2.2.2.2.1⟩

/-- A concrete road part with both connections set, used to witness C2. -/
noncomputable def c2Part : RoadPart :=
  { point_1 := (0, 0), point_2 := (1, 0), right_vector := (0, 1), left_vector := (0, -1),
    right_connection := some (300, 1), left_connection := some (200, -1),
    right_projection := none, left_projection := none, left_outer := none,
    right_outer := none, point_a := none, point_middle := none }

theorem roadPart_update_anchor_witness :
    ∃ pm, c2Part.update.point_middle = some pm ∧
      (∀ pa, c2Part.update.point_a = some pa → vdist pa c2Part.point_1 ≤ 100) := by
  obtain ⟨pm, h1, _, _, h4⟩ := roadPart_update_anchor c2Part (200, -1) (300, 1) rfl rfl
  exact ⟨pm, h1, h4⟩

/-- Modelled from the spec: `compute_angle` of `map_machine.vector` (module
not in `src/`) — the atan2 angle between a vector and the x axis. -/
noncomputable def atan2 (y x : ℝ) : ℝ :=
  if 0 < x then Real.arctan (y / x)
  else if x < 0 then
    (if 0 ≤ y then Real.arctan (y / x) + Real.pi else Real.arctan (y / x) - Real.pi)
  else (if 0 < y then Real.pi / 2 else if y < 0 then -(Real.pi / 2) else 0)

/-- `RoadPart.get_angle`: angle between the segment direction and the x axis. -/
noncomputable def RoadPart.get_angle (p : RoadPart) : ℝ :=
  atan2 (p.point_2 - p.point_1).2 (p.point_2 - p.point_1).1

/-- Modelled from the spec: `Line.get_intersection_point` of
`map_machine.vector` (module not in `src/`) — standard 2D intersection of
the line through `a1, a2` with the line through `b1, b2`. -/
noncomputable def lineIntersection (a1 a2 b1 b2 : Vec) : Vec :=
  let d1 := a2 - a1
  let d2 := b2 - b1
  let denom := d1.1 * d2.2 - d1.2 * d2.1
  let t := ((b1.1 - a1.1) * d2.2 - (b1.2 - a1.2) * d2.1) / denom
  a1 + t • d1

/-- Ordering of road parts by direction angle, the sort key of
`Intersection.__init__`. -/
noncomputable def partAngleLE (p q : RoadPart) : Prop := p.get_angle ≤ q.get_angle

noncomputable instance : DecidableRel partAngleLE :=
  fun p q => inferInstanceAs (Decidable (p.get_angle ≤ q.get_angle))

instance : IsTotal RoadPart partAngleLE := ⟨fun _ _ => le_total _ _⟩

instance : IsTrans RoadPart partAngleLE := ⟨fun _ _ _ => le_trans⟩

/-- Placeholder road part used for out-of-range list reads (never reached on
the in-range accesses performed by the translated loops). -/
noncomputable def dflPart : RoadPart :=
  { point_1 := (0, 0), point_2 := (0, 0), right_vector := (0, 0), left_vector := (0, 0),
    right_connection := none, left_connection := none, right_projection := none,
    left_projection := none, left_outer := none, right_outer := none,
    point_a := none, point_middle := none }

/-- Read a part out of the list, modify it, and write it back: the explicit
state-passing form of a Python attribute assignment on a list element. -/
noncomputable def setPart (ps : List RoadPart) (i : Nat) (f : RoadPart → RoadPart) :
    List RoadPart :=
  ps.set i (f (ps.getD i dflPart))

/-- Body of the first loop of `Intersection.__init__` (lines 292–309):
compute the boundary-line intersection for the cyclically adjacent pair
`(index, next)`, assign it as `right_connection` of the first part and
`left_connection` of the second, and update both. -/
noncomputable def intersectionStep1 (ps : List RoadPart) (index : Nat) : List RoadPart :=
  let next := if index = ps.length - 1 then 0 else index + 1
  let part_1 := ps.getD index dflPart
  let part_2 := ps.getD next dflPart
  let inter := lineIntersection
    (part_1.point_1 + part_1.right_vector) (part_1.point_2 + part_1.right_vector)
    (part_2.point_1 + part_2.left_vector) (part_2.point_2 + part_2.left_vector)
  setPart
    (setPart
      (setPart (setPart ps index (fun q => { q with right_connection := some inter }))
        next (fun q => { q with left_connection := some inter }))
      index RoadPart.update)
    next RoadPart.update

/-- Body of the second loop of `Intersection.__init__` (lines 311–328):
update both parts, fall back to the mirrored projections when neither end
of the adjacent pair received a connection, and update again. -/
noncomputable def intersectionStep2 (ps0 : List RoadPart) (index : Nat) : List RoadPart :=
  let next := if index = ps0.length - 1 then 0 else index + 1
  let ps := setPart (setPart ps0 index RoadPart.update) next RoadPart.update
  let part_1 := ps.getD index dflPart
  let part_2 := ps.getD next dflPart
  let ps1 :=
    if part_1.right_connection.isNone ∧ part_2.left_connection.isNone then
      setPart
        (setPart ps index (fun q =>
          { q with left_connection := part_1.right_projection,
                   left_outer := part_1.right_projection }))
        next (fun q =>
          { q with right_connection := part_2.left_projection,
                   right_outer := part_2.left_projection })
    else ps
  setPart (setPart ps1 index RoadPart.update) next RoadPart.update

/-- `Intersection.__init__`: sort the parts by angle, then run the two
mutation passes over all cyclically adjacent pairs. -/
noncomputable def mkIntersection (parts : List RoadPart) : List RoadPart :=
  let sorted := List.insertionSort partAngleLE parts
  let ps := (List.range sorted.length).foldl intersectionStep1 sorted
  (List.range ps.length).foldl intersectionStep2 ps

/-- SVG path command, the shape of the command lists built by
`Intersection.draw`. -/
inductive PathCmd where
  | M
  | L
  | Z
  | pt (v : Option Vec)

/-- The inner fill polygon commands of `Intersection.draw` (lines 332–335):
`["M"]`, then every part's `left_connection` followed by `"L"`, with the
final element replaced by `"Z"`. -/
noncomputable def innerCommands (ps : List RoadPart) : List PathCmd :=
  let cmds := PathCmd.M :: ps.flatMap (fun p => [PathCmd.pt p.left_connection, PathCmd.L])
  cmds.dropLast ++ [PathCmd.Z]

/-- The vertices appearing in a command list, in order. -/
noncomputable def pathVertices (cmds : List PathCmd) : List (Option Vec) :=
  cmds.filterMap (fun c => match c with | PathCmd.pt v => some v | _ => none)

/-- Two part lists agree in length and in the construction-time geometry
(`point_1`, `point_2`) of every element. -/
def GeomAgree (ps qs : List RoadPart) : Prop :=
  ps.length = qs.length ∧
  ∀ i, (ps.getD i dflPart).point_1 = (qs.getD i dflPart).point_1 ∧
       (ps.getD i dflPart).point_2 = (qs.getD i dflPart).point_2

theorem geomAgree_refl (ps : List RoadPart) : GeomAgree ps ps :=
  ⟨rfl, fun _ => ⟨rfl, rfl⟩⟩

theorem geomAgree_trans {ps qs rs : List RoadPart}
    (h1 : GeomAgree ps qs) (h2 : GeomAgree qs rs) : GeomAgree ps rs :=
  ⟨h1.1.trans h2.1, fun i =>
    ⟨(h1.2 i).1.trans (h2.2 i).1, (h1.2 i).2.trans (h2.2 i).2⟩⟩

theorem updateProjections_keeps (p : RoadPart) :
    p.updateProjections.point_1 = p.point_1 ∧ p.updateProjections.point_2 = p.point_2 := by
  unfold RoadPart.updateProjections
  cases hL : p.left_connection <;> cases hR : p.right_connection <;> simp

theorem updateOuters_keeps (p : RoadPart) :
    p.updateOuters.point_1 = p.point_1 ∧ p.updateOuters.point_2 = p.point_2 := by
  unfold RoadPart.updateOuters
  refine ⟨?_, ?_⟩ <;>
    (cases hL : p.left_connection <;> cases hR : p.right_connection <;>
      cases hRP : p.right_projection <;> cases hLP : p.left_projection <;>
      first
        | rfl
        | (split <;> rfl)
        | (dsimp only; split <;> rfl))

theorem updateClip_keeps (p : RoadPart) :
    p.updateClip.point_1 = p.point_1 ∧ p.updateClip.point_2 = p.point_2 := by
  unfold RoadPart.updateClip
  refine ⟨?_, ?_⟩ <;>
    (cases hL : p.left_connection <;> cases hR : p.right_connection <;>
      cases hPM : p.point_middle <;>
      first
        | rfl
        | (split <;> rfl)
        | (dsimp only; split <;> rfl))

theorem update_keeps (p : RoadPart) :
    p.update.point_1 = p.point_1 ∧ p.update.point_2 = p.point_2 := by
  unfold RoadPart.update
  obtain ⟨h1, h2⟩ := updateClip_keeps p.updateProjections.updateOuters
  obtain ⟨h3, h4⟩ := updateOuters_keeps p.updateProjections
  obtain ⟨h5, h6⟩ := updateProjections_keeps p
  exact ⟨h1.trans (h3.trans h5), h2.trans (h4.trans h6)⟩

theorem geomAgree_setPart (ps : List RoadPart) (i : Nat) (f : RoadPart → RoadPart)
    (hf : ∀ p, (f p).point_1 = p.point_1 ∧ (f p).point_2 = p.point_2) :
    GeomAgree ps (setPart ps i f) := by
  refine ⟨(List.length_set ps i _).symm, fun j => ?_⟩
  unfold setPart
  rw [List.getD_eq_getElem?_getD ps j, List.getD_eq_getElem?_getD (ps.set i _) j,
      List.getElem?_set]
  split_ifs with hij hlt
  · subst hij
    rw [List.getElem?_eq_getElem hlt]
    have hg : ps.getD i dflPart = ps[i] := List.getD_eq_getElem ps dflPart hlt
    exact ⟨((hf _).1.trans (congrArg RoadPart.point_1 hg)).symm,
           ((hf _).2.trans (congrArg RoadPart.point_2 hg)).symm⟩
  · subst hij
    rw [List.getElem?_eq_none (by omega)]
    exact ⟨rfl, rfl⟩
  · exact ⟨rfl, rfl⟩

theorem geomAgree_then_setPart {ps qs : List RoadPart} (h : GeomAgree ps qs)
    (i : Nat) (f : RoadPart → RoadPart)
    (hf : ∀ p, (f p).point_1 = p.point_1 ∧ (f p).point_2 = p.point_2) :
    GeomAgree ps (setPart qs i f) :=
  geomAgree_trans h (geomAgree_setPart qs i f hf)

theorem geomAgree_step1 (ps : List RoadPart) (i : Nat) :
    GeomAgree ps (intersectionStep1 ps i) := by
  unfold intersectionStep1
  split_ifs <;>
    repeat
      first
        | exact geomAgree_refl ps
        | exact update_keeps
        | exact fun p => ⟨rfl, rfl⟩
        | apply geomAgree_then_setPart

theorem geomAgree_step2 (ps : List RoadPart) (i : Nat) :
    GeomAgree ps (intersectionStep2 ps i) := by
  unfold intersectionStep2
  split_ifs <;>
    repeat
      first
        | exact geomAgree_refl ps
        | exact update_keeps
        | exact fun p => ⟨rfl, rfl⟩
        | apply geomAgree_then_setPart
        | split_ifs

theorem geomAgree_foldl (f : List RoadPart → Nat → List RoadPart)
    (hf : ∀ ps i, GeomAgree ps (f ps i)) (l : List Nat) (ps : List RoadPart) :
    GeomAgree ps (l.foldl f ps) := by
  induction l generalizing ps with
  | nil => exact geomAgree_refl ps
  | cons a t ih => exact geomAgree_trans (hf ps a) (ih (f ps a))

theorem geomAgree_mkIntersection (parts : List RoadPart) :
    GeomAgree (List.insertionSort partAngleLE parts) (mkIntersection parts) := by
  unfold mkIntersection
  exact geomAgree_trans (geomAgree_foldl _ geomAgree_step1 _ _)
    (geomAgree_foldl _ geomAgree_step2 _ _)

theorem innerCommands_getLast (ps : List RoadPart) :
    (innerCommands ps).getLast? = some PathCmd.Z := by
  unfold innerCommands
  exact List.getLast?_concat _

theorem filterMap_dropLast_flatMap (ps : List RoadPart) :
    List.filterMap (fun c => match c with | PathCmd.pt v => some v | _ => none)
      ((ps.flatMap (fun p => [PathCmd.pt p.left_connection, PathCmd.L])).dropLast) =
    ps.map (fun p => p.left_connection) := by
  induction ps with
  | nil => rfl
  | cons p t ih =>
    cases t with
    | nil => rfl
    | cons q t2 =>
      rw [List.flatMap_cons]
      have hne : (q :: t2).flatMap
          (fun p => [PathCmd.pt p.left_connection, PathCmd.L]) ≠ [] := by
        rw [List.flatMap_cons]; simp
      rw [List.dropLast_append_of_ne_nil _ hne, List.filterMap_append]
      simp only [List.filterMap_cons, List.filterMap_nil]
      rw [ih]
      rfl

theorem pathVertices_innerCommands (ps : List RoadPart) :
    pathVertices (innerCommands ps) = ps.map (fun p => p.left_connection) := by
  unfold pathVertices innerCommands
  rw [List.filterMap_append]
  cases ps with
  | nil => rfl
  | cons p t =>
    have hne : (p :: t).flatMap
        (fun p => [PathCmd.pt p.left_connection, PathCmd.L]) ≠ [] := by
      rw [List.flatMap_cons]; simp
    rw [List.dropLast_cons_of_ne_nil hne]
    simp only [List.filterMap_cons, List.filterMap_nil]
    rw [List.append_nil]
    exact filterMap_dropLast_flatMap (p :: t)

theorem get_angle_congr {p q : RoadPart}
    (h1 : p.point_1 = q.point_1) (h2 : p.point_2 = q.point_2) :
    p.get_angle = q.get_angle := by
  unfold RoadPart.get_angle
  rw [h1, h2]

theorem geomAgree_get_angle {ps qs : List RoadPart} (h : GeomAgree ps qs)
    {i : Nat} (hi : i < ps.length) (hi' : i < qs.length) :
    (ps.get ⟨i, hi⟩).get_angle = (qs.get ⟨i, hi'⟩).get_angle := by
  have h1 := (h.2 i).1
  have h2 := (h.2 i).2
  rw [List.getD_eq_getElem ps dflPart hi, List.getD_eq_getElem qs dflPart hi'] at h1 h2
  exact get_angle_congr h1 h2

/-- Claim C9.  For an `Intersection` over any list of road parts, the inner
fill polygon of `Intersection.draw` is closed (ends with `Z`) and its
vertex list is exactly the `left_connection` of each stored part in order;
the stored parts are the input parts sorted in ascending order of their
direction angles (`atan2` of `point_2 - point_1`), as witnessed by their
count, their sortedness by angle, their construction-time geometry, and
the permutation property of the sort. -/
theorem intersection_inner_polygon (parts : List RoadPart) :
    pathVertices (innerCommands (mkIntersection parts)) =
      (mkIntersection parts).map (fun p => p.left_connection) ∧
    (innerCommands (mkIntersection parts)).getLast? = some PathCmd.Z ∧
    (mkIntersection parts).length = parts.length ∧
    List.Sorted (fun p q : RoadPart => p.get_angle ≤ q.get_angle)
      (mkIntersection parts) ∧
    (mkIntersection parts).map (fun p => (p.point_1, p.point_2)) =
      (List.insertionSort partAngleLE parts).map (fun p => (p.point_1, p.point_2)) ∧
    (List.insertionSort partAngleLE parts).Perm parts := by
  have hgeom := geomAgree_mkIntersection parts
  have hlen2 := hgeom.1
  have hlen : (mkIntersection parts).length = parts.length := by
    rw [← hlen2]
    exact (List.perm_insertionSort partAngleLE parts).length_eq
  refine ⟨pathVertices_innerCommands _, innerCommands_getLast _, hlen, ?_, ?_,
    List.perm_insertionSort _ _⟩
  · have hs := List.sorted_insertionSort partAngleLE parts
    rw [List.Sorted, List.pairwise_iff_get] at hs ⊢
    intro i j hij
    have hi' : (i : Nat) < (List.insertionSort partAngleLE parts).length := by
      rw [hlen2]; exact i.isLt
    have hj' : (j : Nat) < (List.insertionSort partAngleLE parts).length := by
      rw [hlen2]; exact j.isLt
    have hsij := hs ⟨i, hi'⟩ ⟨j, hj'⟩ (by exact hij)
    unfold partAngleLE at hsij
    have e1 := geomAgree_get_angle hgeom hi' i.isLt
    have e2 := geomAgree_get_angle hgeom hj' j.isLt
    show ((mkIntersection parts).get i).get_angle ≤
      ((mkIntersection parts).get j).get_angle
    rw [← e1, ← e2]
    exact hsij
  · apply List.ext_get
    · simp [hlen2]
    · intro n h1 h2
      rw [List.length_map] at h1 h2
      have hn1 : n < (mkIntersection parts).length := h1
      have hn2 : n < (List.insertionSort partAngleLE parts).length := h2
      have ha := (hgeom.2 n).1
      have hb := (hgeom.2 n).2
      rw [List.getD_eq_getElem _ dflPart hn2, List.getD_eq_getElem _ dflPart hn1] at ha hb
      simp only [List.get_eq_getElem, List.getElem_map]
      exact Prod.ext ha.symm hb.symm

/-- An OSM node: stable identity plus a geocoordinate. -/
structure OSMNode where
  id_ : Nat
  coordinates : Vec

/-- The style-resolver output consumed by `Road` (`RoadMatcher` of
`map_machine.scheme`, treated as an opaque external interface): a default
width and a draw priority. -/
structure RoadMatcher where
  default_width : ℚ
  priority : ℚ

/-- The projector (`Flinger` of `map_machine.flinger`, an opaque external
interface): a projection function and a linear scale factor. -/
structure Flinger where
  fling : Vec → Vec
  scaleAt : Vec → ℚ

/-- Python `tags.get(key)` / `tags[key]` over an association list. -/
def tagGet (tags : List (String × String)) (k : String) : Option String :=
  (tags.find? (fun kv => kv.1 == k)).map (fun kv => kv.2)

def digitsToNat (cs : List Char) : Option Nat :=
  cs.foldl
    (fun acc c =>
      acc.bind (fun n => if c.isDigit then some (10 * n + (c.toNat - '0'.toNat)) else none))
    (some 0)

def parseDigits (cs : List Char) : Option Nat :=
  if cs.isEmpty then none else digitsToNat cs

/-- Models Python `int()` as used on tag values: an optional sign followed
by decimal digits; anything else raises `ValueError` (`none` here). -/
def parseInt (s : String) : Option Int :=
  match s.toList with
  | '-' :: rest => (parseDigits rest).map (fun n => -(n : Int))
  | '+' :: rest => (parseDigits rest).map (fun n => (n : Int))
  | cs => (parseDigits cs).map (fun n => (n : Int))

/-- Split a character list on a separator character. -/
def splitOnChar (c : Char) : List Char → List (List Char)
  | [] => [[]]
  | a :: rest =>
    let r := splitOnChar c rest
    if a = c then [] :: r
    else
      match r with
      | [] => [[a]]
      | h :: t => (a :: h) :: t

/-- Models Python `float()` on plain decimal literals: optional sign,
digits, optional fractional part; anything else raises `ValueError`
(`none` here). -/
def parseFloatChars (cs : List Char) : Option ℚ :=
  let core : List Char → Option ℚ := fun body =>
    match splitOnChar '.' body with
    | [a] => (parseDigits a).map (fun n => (n : ℚ))
    | [a, b] =>
      match parseDigits a, parseDigits b with
      | some n, some f => some ((n : ℚ) + (f : ℚ) / ((10 : ℚ) ^ b.length))
      | _, _ => none
    | _ => none
  match cs with
  | '-' :: rest => (core rest).map (fun q => -q)
  | '+' :: rest => core rest
  | _ => core cs

def parseFloat (s : String) : Option ℚ := parseFloatChars s.toList

/-- `list(map(float, s.split("|")))`: the whole list parses or the call
raises (`none`). -/
def parseFloats (s : String) : Option (List ℚ) :=
  (splitOnChar '|' s.toList).foldr
    (fun p acc =>
      match parseFloatChars p, acc with
      | some q, some l => some (q :: l)
      | _, _ => none)
    (some [])

/-- Python slice `l[i:]` with a possibly negative start index. -/
def pyDropFrom (l : List Nat) (i : Int) : List Nat :=
  if i < 0 then l.drop (((l.length : Int) + i).toNat) else l.drop i.toNat

/-- Python slice `l[:i]` with a possibly negative stop index. -/
def pyTakeTo (l : List Nat) (i : Int) : List Nat :=
  if i < 0 then l.take (((l.length : Int) + i).toNat) else l.take i.toNat

/-- State of a `Road` object.  Python's `self.lanes` is a list of (possibly
aliased) `Lane` objects; it is embedded as a list of references
(`laneRefs`) into an arena (`laneHeap`), so that `[Lane()] * n` — one
object referenced `n` times — keeps its aliasing semantics. -/
structure Road where
  tags : List (String × String)
  nodes : List OSMNode
  matcher : RoadMatcher
  line : List Vec
  width : ℚ
  laneRefs : List Nat
  laneHeap : List Lane
  layer : ℚ

/-- `[x.set_forward(b) for x in lanes]` over a reference list. -/
def markForward (heap : List Lane) (refs : List Nat) (b : Bool) : List Lane :=
  refs.foldl (fun h r => List.modify (fun l => { l with is_forward := some b }) r h) heap

/-- `for index, lane in enumerate(lanes): lane.width = widths[index]`. -/
def setLaneWidths (heap : List Lane) (refs : List Nat) (ws : List ℚ) : List Lane :=
  (refs.zip ws).foldl
    (fun h rw => List.modify (fun l => { l with width := some rw.2 }) rw.1 h) heap

/-- `Road.__init__` (lines 371–419).  The `lanes` and `width` parses are
wrapped in `try/except ValueError` in the source and fall back silently;
the `width:lanes`, `lanes:forward`, `lanes:backward` and `layer` parses
are not wrapped, so a malformed value there raises (`none` here). -/
def mkRoad (tags : List (String × String)) (nodes : List OSMNode)
    (matcher : RoadMatcher) (flinger : Flinger) : Option Road := do
  let line := nodes.map (fun n => flinger.fling n.coordinates)
  let wlh : ℚ × List Nat × List Lane :=
    match tagGet tags "lanes" with
    | some s =>
      match parseInt s with
      | some n => ((n : ℚ) * (37 / 10), List.replicate n.toNat 0, [defaultLane])
      | none => (matcher.default_width, [], [])
    | none => (matcher.default_width, [], [])
  let width1 := wlh.1
  let laneRefs := wlh.2.1
  let heap0 := wlh.2.2
  let heap1 ←
    match tagGet tags "width:lanes" with
    | some s =>
      match parseFloats s with
      | none => none
      | some widths =>
        if widths.length = laneRefs.length then
          some (setLaneWidths heap0 laneRefs widths)
        else
          some heap0
    | none => some heap0
  let heap2 ←
    match tagGet tags "lanes:forward" with
    | some s =>
      match parseInt s with
      | none => none
      | some n => some (markForward heap1 (pyDropFrom laneRefs (-n)) true)
    | none => some heap1
  let heap3 ←
    match tagGet tags "lanes:backward" with
    | some s =>
      match parseInt s with
      | none => none
      | some n => some (markForward heap2 (pyTakeTo laneRefs n) false)
    | none => some heap2
  let width2 :=
    match tagGet tags "width" with
    | some s =>
      match parseFloat s with
      | some w => w
      | none => width1
    | none => width1
  let layer ←
    match tagGet tags "layer" with
    | some s =>
      match parseFloat s with
      | none => none
      | some l => some l
    | none => some 0
  some { tags := tags, nodes := nodes, matcher := matcher, line := line,
         width := width2, laneRefs := laneRefs, laneHeap := heap3, layer := layer }

/-- Counterexample to claim C4: a malformed `width:lanes` value is parsed
outside any `try/except`, so `Road` construction raises (`none`) instead
of falling back to defaults. -/
theorem road_raises_on_malformed_width_lanes :
    mkRoad [("width:lanes", "x")] [] ⟨1, 1⟩ ⟨fun v => v, fun _ => 1⟩ = none := rfl

/-- Claim C4, amended.  During `Road` construction only the `lanes` and
`width` parses are guarded: malformed values there are caught and ignored,
leaving the default width and an empty lane list.  Malformed values in
`width:lanes`, `lanes:forward`, `lanes:backward` or `layer` are parsed
unguarded and make construction raise. -/
theorem road_malformed_numeric_tags (sl sw s1 s2 s3 : String)
    (nds : List OSMNode) (m : RoadMatcher) (f : Flinger)
    (h1 : parseInt sl = none) (h2 : parseFloat sw = none)
    (h3 : parseFloats s1 = none) (h4 : parseInt s2 = none)
    (h5 : parseFloat s3 = none) :
    (∃ r, mkRoad [("lanes", sl), ("width", sw)] nds m f = some r ∧
      r.width = m.default_width ∧ r.laneRefs = [] ∧ r.laneHeap = []) ∧
    mkRoad [("width:lanes", s1)] nds m f = none ∧
    mkRoad [("lanes:forward", s2)] nds m f = none ∧
    mkRoad [("lanes:backward", s2)] nds m f = none ∧
    mkRoad [("layer", s3)] nds m f = none := by
  refine ⟨?_, ?_, ?_, ?_, ?_⟩
  · simp [mkRoad, tagGet, h1, h2]
  · simp [mkRoad, tagGet, h3]
  · simp [mkRoad, tagGet, h4]
  · simp [mkRoad, tagGet, h4]
  · simp [mkRoad, tagGet, h5]

theorem road_malformed_numeric_tags_witness :
    parseInt "abc" = none ∧ parseFloats "1|y" = none ∧
    mkRoad [("width:lanes", "1|y")] [] ⟨1, 1⟩ ⟨fun v => v, fun _ => 1⟩ = none := by
  have h := road_malformed_numeric_tags "abc" "x" "1|y" "abc" "x" []
    ⟨1, 1⟩ ⟨fun v => v, fun _ => 1⟩
    (by decide) (by decide) (by decide) (by decide) (by decide)
  exact ⟨by decide, by decide, h.2.1⟩

theorem zip_replicate_zero (ws : List ℚ) :
    (List.replicate ws.length (0 : Nat)).zip ws = ws.map (fun w => ((0 : Nat), w)) := by
  induction ws with
  | nil => rfl
  | cons w t ih => simp [List.replicate_succ, ih]

theorem foldl_width_zeros (ln : Lane) (ps : List ℚ) (h : ps ≠ []) :
    (ps.map (fun w => ((0 : Nat), w))).foldl
      (fun h rw => List.modify (fun l => { l with width := some rw.2 }) rw.1 h) [ln] =
    [{ ln with width := ps.getLast? }] := by
  induction ps generalizing ln with
  | nil => exact absurd rfl h
  | cons w t ih =>
    cases t with
    | nil => rfl
    | cons q t2 =>
      rw [List.getLast?_cons_cons]
      exact ih { ln with width := some w } (by simp)

theorem setLaneWidths_shared (ln : Lane) (ws : List ℚ) (h : ws ≠ []) :
    setLaneWidths [ln] (List.replicate ws.length 0) ws =
      [{ ln with width := ws.getLast? }] := by
  unfold setLaneWidths
  rw [zip_replicate_zero]
  exact foldl_width_zeros ln ws h

theorem markForward_zeros (b : Bool) (m : Nat) (ln : Lane) :
    markForward [ln] (List.replicate (m + 1) 0) b = [{ ln with is_forward := some b }] := by
  induction m generalizing ln with
  | zero => rfl
  | succ k ih =>
    rw [List.replicate_succ]
    exact ih { ln with is_forward := some b }

theorem pyDropFrom_replicate (k : Nat) (nf : Int) (hk : 1 ≤ k) (hnf : 1 ≤ nf) :
    ∃ m, pyDropFrom (List.replicate k 0) (-nf) = List.replicate (m + 1) 0 := by
  unfold pyDropFrom
  rw [if_pos (by omega), List.length_replicate, List.drop_replicate]
  exact ⟨k - ((k : Int) + -nf).toNat - 1, by congr 1; omega⟩

theorem pyTakeTo_replicate (k : Nat) (nb : Int) (hk : 1 ≤ k) (hnb : 1 ≤ nb) :
    ∃ m, pyTakeTo (List.replicate k 0) nb = List.replicate (m + 1) 0 := by
  unfold pyTakeTo
  rw [if_neg (by omega), List.take_replicate]
  exact ⟨min nb.toNat k - 1, by congr 1; omega⟩

/-- Claim C10.  `self.lanes = [Lane()] * n` creates `n` references to one
shared `Lane` object, so after a matching `width:lanes` every lane's width
is the last listed value, and `lanes:forward` / `lanes:backward` mark all
`n` lanes at once even when the slice is proper. -/
theorem road_lanes_aliasing (sl swl sf sb : String) (n nf nb : Int) (ws : List ℚ)
    (nds : List OSMNode) (m : RoadMatcher) (f : Flinger)
    (hn : parseInt sl = some n) (h2 : 2 ≤ n)
    (hws : parseFloats swl = some ws) (hlen : ws.length = n.toNat)
    (hnf : parseInt sf = some nf) (hnf1 : 1 ≤ nf)
    (hnb : parseInt sb = some nb) (hnb1 : 1 ≤ nb) :
    (∃ r, mkRoad [("lanes", sl), ("width:lanes", swl)] nds m f = some r ∧
      r.laneRefs = List.replicate n.toNat 0 ∧
      (∀ i ∈ r.laneRefs, i = 0) ∧
      (∀ i ∈ r.laneRefs, (r.laneHeap.getD i defaultLane).width = ws.getLast?)) ∧
    (∃ r, mkRoad [("lanes", sl), ("lanes:forward", sf)] nds m f = some r ∧
      r.laneRefs = List.replicate n.toNat 0 ∧
      (∀ i ∈ r.laneRefs, (r.laneHeap.getD i defaultLane).is_forward = some true)) ∧
    (∃ r, mkRoad [("lanes", sl), ("lanes:backward", sb)] nds m f = some r ∧
      r.laneRefs = List.replicate n.toNat 0 ∧
      (∀ i ∈ r.laneRefs, (r.laneHeap.getD i defaultLane).is_forward = some false)) := by
  have hk : 1 ≤ n.toNat := by omega
  have hne : ws ≠ [] := by
    intro h0
    rw [h0] at hlen
    simp at hlen
    omega
  have hrefs : List.replicate n.toNat (0 : Nat) = List.replicate ws.length 0 := by
    rw [hlen]
  refine ⟨?_, ?_, ?_⟩
  · have hA : mkRoad [("lanes", sl), ("width:lanes", swl)] nds m f =
        some { tags := [("lanes", sl), ("width:lanes", swl)], nodes := nds, matcher := m,
               line := nds.map (fun nd => f.fling nd.coordinates),
               width := (n : ℚ) * (37 / 10), laneRefs := List.replicate n.toNat 0,
               laneHeap := [{ defaultLane with width := ws.getLast? }], layer := 0 } := by
      simp [mkRoad, tagGet, hn, hws, hlen, hrefs, setLaneWidths_shared defaultLane ws hne]
    refine ⟨_, hA, rfl, fun i hi => List.eq_of_mem_replicate hi, fun i hi => ?_⟩
    rw [List.eq_of_mem_replicate hi]
    rfl
  · obtain ⟨mf, hmf⟩ := pyDropFrom_replicate n.toNat nf hk hnf1
    have hB : mkRoad [("lanes", sl), ("lanes:forward", sf)] nds m f =
        some { tags := [("lanes", sl), ("lanes:forward", sf)], nodes := nds, matcher := m,
               line := nds.map (fun nd => f.fling nd.coordinates),
               width := (n : ℚ) * (37 / 10), laneRefs := List.replicate n.toNat 0,
               laneHeap := [{ defaultLane with is_forward := some true }], layer := 0 } := by
      simp [mkRoad, tagGet, hn, hnf, hmf, markForward_zeros]
    refine ⟨_, hB, rfl, fun i hi => ?_⟩
    rw [List.eq_of_mem_replicate hi]
    rfl
  · obtain ⟨mb, hmb⟩ := pyTakeTo_replicate n.toNat nb hk hnb1
    have hC : mkRoad [("lanes", sl), ("lanes:backward", sb)] nds m f =
        some { tags := [("lanes", sl), ("lanes:backward", sb)], nodes := nds, matcher := m,
               line := nds.map (fun nd => f.fling nd.coordinates),
               width := (n : ℚ) * (37 / 10), laneRefs := List.replicate n.toNat 0,
               laneHeap := [{ defaultLane with is_forward := some false }], layer := 0 } := by
      simp [mkRoad, tagGet, hn, hnb, hmb, markForward_zeros]
    refine ⟨_, hC, rfl, fun i hi => ?_⟩
    rw [List.eq_of_mem_replicate hi]
    rfl

theorem road_lanes_aliasing_witness :
    parseInt "3" = some 3 ∧ parseFloats "1|2|4" = some [1, 2, 4] ∧
    (∃ r, mkRoad [("lanes", "3"), ("width:lanes", "1|2|4")] [] ⟨1, 1⟩
        ⟨fun v => v, fun _ => 1⟩ = some r ∧
      r.laneRefs = List.replicate 3 0 ∧
      ∀ i ∈ r.laneRefs, (r.laneHeap.getD i defaultLane).width = some 4) := by
  have h := road_lanes_aliasing "3" "1|2|4" "1" "1" 3 1 1 [1, 2, 4] []
    ⟨1, 1⟩ ⟨fun v => v, fun _ => 1⟩
    (by decide) (by decide) (by decide) (by decide)
    (by decide) (by decide) (by decide) (by decide)
  obtain ⟨r, hr, hrefs, _, hw⟩ := h.1
  exact ⟨by decide, by decide, r, hr, hrefs, fun i hi => hw i hi⟩

/-- Modelled from the spec: `Polyline.shorten` of `map_machine.vector`
(module not in `src/`) — move the endpoint at `index` toward its adjacent
vertex by `length` units. -/
noncomputable def shortenLine (points : List Vec) (index : Nat) (length : ℝ) : List Vec :=
  let p := points.getD index (0, 0)
  let q := points.getD (if index = 0 then 1 else index - 1) (0, 0)
  points.set index (p + length • vnormalize (q - p))

/-- Connector variant built by `Roads.draw`: `SimpleConnector` or
`ComplexConnector`. -/
inductive ConnKind where
  | simple
  | complex
deriving DecidableEq

/-- State of a `Connector` object: the shared node, the variant, the two
incident `(road, index)` references, the flung shared point, the layer
range, the primary road's priority and the scale. -/
structure Conn where
  node : Nat
  kind : ConnKind
  r1 : Nat
  i1 : Nat
  r2 : Nat
  i2 : Nat
  point : Vec
  min_layer : ℚ
  max_layer : ℚ
  priority : ℚ
  scale : ℚ

def defaultNode : OSMNode := ⟨0, (0, 0)⟩

def defaultRoad : Road :=
  { tags := [], nodes := [], matcher := ⟨1, 0⟩, line := [], width := 1,
    laneRefs := [], laneHeap := [], layer := 0 }

/-- The classification test of `Roads.draw` (lines 800–804): the two-road
node gets a `SimpleConnector` iff the widths are equal or at least one
incident index is not an endpoint of its road's node list. -/
def simpleCond (roads : List Road) (ri1 i1 ri2 i2 : Nat) : Prop :=
  (roads.getD ri1 defaultRoad).width = (roads.getD ri2 defaultRoad).width ∨
  ¬(i1 = 0 ∨ i1 = (roads.getD ri1 defaultRoad).nodes.length - 1) ∨
  ¬(i2 = 0 ∨ i2 = (roads.getD ri2 defaultRoad).nodes.length - 1)

instance (roads : List Road) (ri1 i1 ri2 i2 : Nat) :
    Decidable (simpleCond roads ri1 i1 ri2 i2) := by
  unfold simpleCond
  infer_instance

/-- One iteration of the connector-resolution loop of `Roads.draw`
(lines 791–810): for a node with exactly two incident `(road, index)`
pairs, build a `SimpleConnector` or a `ComplexConnector` (the latter
shortens both polylines, lines 662–664); other nodes are skipped. -/
noncomputable def resolveNode (roads : List Road) (flinger : Flinger) (scale : ℚ)
    (nodeId : Nat) (connected : List (Nat × Nat)) : Option Conn × List Road :=
  match connected with
  | [(ri1, i1), (ri2, i2)] =>
    let road_1 := roads.getD ri1 defaultRoad
    let road_2 := roads.getD ri2 defaultRoad
    let point := flinger.fling ((road_1.nodes.getD i1 defaultNode).coordinates)
    if simpleCond roads ri1 i1 ri2 i2 then
      (some { node := nodeId, kind := ConnKind.simple, r1 := ri1, i1 := i1, r2 := ri2,
              i2 := i2, point := point,
              min_layer := min road_1.layer road_2.layer,
              max_layer := max road_1.layer road_2.layer,
              priority := road_1.matcher.priority, scale := scale }, roads)
    else
      let len := |road_2.width - road_1.width| * scale
      let roads1 := roads.set ri1 { road_1 with line := shortenLine road_1.line i1 (len : ℝ) }
      let road_2b := roads1.getD ri2 defaultRoad
      let roads2 := roads1.set ri2 { road_2b with line := shortenLine road_2b.line i2 (len : ℝ) }
      (some { node := nodeId, kind := ConnKind.complex, r1 := ri1, i1 := i1, r2 := ri2,
              i2 := i2, point := point,
              min_layer := min road_1.layer road_2.layer,
              max_layer := max road_1.layer road_2.layer,
              priority := road_1.matcher.priority, scale := scale }, roads2)
  | _ => (none, roads)

/-- Drawing primitive: a filled circle (the only primitive the claims
inspect geometrically). -/
inductive Prim where
  | circle (center : Vec) (radius : ℚ)

/-- `SimpleConnector.draw`: one circle at the shared point of radius
`road_1.width * scale / 2`. -/
noncomputable def simpleConnectorDraw (roads : List Road) (c : Conn) : List Prim :=
  [Prim.circle c.point ((roads.getD c.r1 defaultRoad).width * c.scale / 2)]

/-- `SimpleConnector.draw_border`: the same circle with radius
`road_1.width * scale / 2 + 1`. -/
noncomputable def simpleConnectorDrawBorder (roads : List Road) (c : Conn) : List Prim :=
  [Prim.circle c.point ((roads.getD c.r1 defaultRoad).width * c.scale / 2 + 1)]

/-- The whole road structure: the road list and the node-to-(road, index)
adjacency, keyed by node identity in first-appearance order (Python dict
insertion order). -/
structure Network where
  roads : List Road
  nodesAdj : List (Nat × List (Nat × Nat))

/-- Append a value to the bucket of `key`, creating the bucket at the end
on first use — Python `dict` insertion-order semantics. -/
def adjAdd (adj : List (Nat × List (Nat × Nat))) (key : Nat) (v : Nat × Nat) :
    List (Nat × List (Nat × Nat)) :=
  match adj with
  | [] => [(key, [v])]
  | (k, vs) :: rest =>
    if k = key then (k, vs ++ [v]) :: rest else (k, vs) :: adjAdd rest key v

/-- `Roads.append`: register the road and extend every touched node's
adjacency list. -/
def Network.append (net : Network) (road : Road) : Network :=
  { roads := net.roads ++ [road],
    nodesAdj := road.nodes.enum.foldl
      (fun adj p => adjAdd adj p.2.id_ (net.roads.length, p.1)) net.nodesAdj }

/-- Build a network by appending roads in order. -/
def mkNetwork (rs : List Road) : Network := rs.foldl Network.append ⟨[], []⟩

/-- Layer-keyed buckets with Python `dict` insertion-order semantics. -/
def bucketAdd {α : Type} (m : List (ℚ × List α)) (k : ℚ) (v : α) : List (ℚ × List α) :=
  match m with
  | [] => [(k, [v])]
  | (k', vs) :: rest =>
    if k' = k then (k', vs ++ [v]) :: rest else (k', vs) :: bucketAdd rest k v

def bucketGet {α : Type} (m : List (ℚ × List α)) (k : ℚ) : List α :=
  match m.find? (fun kv => decide (kv.1 = k)) with
  | some kv => kv.2
  | none => []

/-- One step of the connector-resolution loop: resolve the node, keep the
possibly mutated roads, and append a built connector to its `min_layer`
bucket and then to its `max_layer` bucket (lines 812–818). -/
noncomputable def resolveStep (flinger : Flinger) (scale : ℚ)
    (acc : List Road × List (ℚ × List Conn)) (entry : Nat × List (Nat × Nat)) :
    List Road × List (ℚ × List Conn) :=
  match resolveNode acc.1 flinger scale entry.1 entry.2 with
  | (none, roads') => (roads', acc.2)
  | (some c, roads') =>
    (roads', bucketAdd (bucketAdd acc.2 c.min_layer c) c.max_layer c)

/-- The connector-resolution loop of `Roads.draw` (lines 791–818): walk the
nodes in adjacency order. -/
noncomputable def resolveAll (net : Network) (flinger : Flinger) (scale : ℚ) :
    List Road × List (ℚ × List Conn) :=
  net.nodesAdj.foldl (resolveStep flinger scale) (net.roads, [])

/-- Grouping of roads (as indices) by their `layer` (lines 786–789). -/
def layerRoads (roads : List Road) : List (ℚ × List Nat) :=
  roads.enum.foldl (fun m p => bucketAdd m p.2.layer p.1) []

/-- Draw-call events, the identity-level trace of `Roads.draw`. -/
inductive Event where
  | roadBorder (ri : Nat)
  | connBorder (node : Nat)
  | roadFill (ri : Nat)
  | connFill (node : Nat)
  | laneSep (ri : Nat)
  | caption (ri : Nat)
deriving DecidableEq

/-- Ordering of road indices by matcher priority, the per-layer sort key of
`Roads.draw` (line 822). -/
def prioLE (roads : List Road) (a b : Nat) : Prop :=
  (roads.getD a defaultRoad).matcher.priority ≤ (roads.getD b defaultRoad).matcher.priority

instance (roads : List Road) : DecidableRel (prioLE roads) :=
  fun a b => inferInstanceAs (Decidable (_ ≤ _))

/-- The draw calls of one layer iteration (lines 830–843): road borders in
priority order, borders of connectors whose `min_layer` is this layer,
road fills, fills of connectors whose `max_layer` is this layer, lane
separators. -/
noncomputable def layerBlock (roads : List Road) (conns : List (ℚ × List Conn))
    (layeredRoads : List (ℚ × List Nat)) (layer : ℚ) : List Event :=
  let roadsSorted := List.insertionSort (prioLE roads) (bucketGet layeredRoads layer)
  let cs := bucketGet conns layer
  roadsSorted.map Event.roadBorder
    ++ (cs.filter (fun c => decide (c.min_layer = layer))).map (fun c => Event.connBorder c.node)
    ++ roadsSorted.map Event.roadFill
    ++ (cs.filter (fun c => decide (c.max_layer = layer))).map (fun c => Event.connFill c.node)
    ++ roadsSorted.map Event.laneSep

/-- `Roads.draw` (lines 775–847): resolve connectors, group by layer, then
emit the layer blocks in ascending layer order (and captions at the very
end when requested).  Returns the emitted draw calls together with the
updated road state — repeated calls re-run the resolution pass. -/
noncomputable def Network.draw (net : Network) (flinger : Flinger) (draw_captions : Bool) :
    List Event × Network :=
  match net.roads with
  | [] => ([], net)
  | r0 :: _ =>
    let scale := flinger.scaleAt ((r0.nodes.getD 0 defaultNode).coordinates)
    let layeredRoads := layerRoads net.roads
    let rc := resolveAll net flinger scale
    let layers := List.insertionSort (fun a b : ℚ => a ≤ b)
      (layeredRoads.map (fun kv => kv.1))
    let events := layers.flatMap (layerBlock rc.1 rc.2 layeredRoads)
    let events2 :=
      if draw_captions then events ++ (List.range net.roads.length).map Event.caption
      else events
    (events2, { net with roads := rc.1 })

/-- Claim C3.  A node with exactly two incident `(road, index)` pairs always
gets a connector; it is a width-preserving `SimpleConnector` iff the
widths are equal or at least one incident index is not an endpoint of its
road's node list (and a width-transition `ComplexConnector` otherwise);
the `SimpleConnector`'s fill pass is a single circle at the shared point
of radius `road_1.width * scale / 2`, and its border pass the same circle
with radius `road_1.width * scale / 2 + 1`. -/
theorem connector_classification (roads : List Road) (flinger : Flinger) (scale : ℚ)
    (nodeId ri1 i1 ri2 i2 : Nat) :
    ∃ c, (resolveNode roads flinger scale nodeId [(ri1, i1), (ri2, i2)]).1 = some c ∧
      c.kind = (if simpleCond roads ri1 i1 ri2 i2 then ConnKind.simple
                else ConnKind.complex) ∧
      (c.kind = ConnKind.simple ↔ simpleCond roads ri1 i1 ri2 i2) ∧
      (c.kind = ConnKind.simple →
        (resolveNode roads flinger scale nodeId [(ri1, i1), (ri2, i2)]).2 = roads ∧
        simpleConnectorDraw roads c =
          [Prim.circle c.point ((roads.getD ri1 defaultRoad).width * scale / 2)] ∧
        simpleConnectorDrawBorder roads c =
          [Prim.circle c.point ((roads.getD ri1 defaultRoad).width * scale / 2 + 1)]) := by
  by_cases hc : simpleCond roads ri1 i1 ri2 i2
  · refine
      ⟨{ node := nodeId, kind := ConnKind.simple, r1 := ri1, i1 := i1, r2 := ri2, i2 := i2,
         point := flinger.fling (((roads.getD ri1 defaultRoad).nodes.getD i1 defaultNode).coordinates),
         min_layer := min (roads.getD ri1 defaultRoad).layer (roads.getD ri2 defaultRoad).layer,
         max_layer := max (roads.getD ri1 defaultRoad).layer (roads.getD ri2 defaultRoad).layer,
         priority := (roads.getD ri1 defaultRoad).matcher.priority, scale := scale },
       ?_, ?_, ?_, ?_⟩
    · unfold resolveNode
      dsimp only
      rw [if_pos hc]
    · rw [if_pos hc]
    · exact iff_of_true rfl hc
    · refine fun _ => ⟨?_, rfl, rfl⟩
      unfold resolveNode
      dsimp only
      rw [if_pos hc]
  · refine
      ⟨{ node := nodeId, kind := ConnKind.complex, r1 := ri1, i1 := i1, r2 := ri2, i2 := i2,
         point := flinger.fling (((roads.getD ri1 defaultRoad).nodes.getD i1 defaultNode).coordinates),
         min_layer := min (roads.getD ri1 defaultRoad).layer (roads.getD ri2 defaultRoad).layer,
         max_layer := max (roads.getD ri1 defaultRoad).layer (roads.getD ri2 defaultRoad).layer,
         priority := (roads.getD ri1 defaultRoad).matcher.priority, scale := scale },
       ?_, ?_, ?_, ?_⟩
    · unfold resolveNode
      dsimp only
      rw [if_neg hc]
    · rw [if_neg hc]
    · exact iff_of_false (fun h => nomatch h) hc
    · exact fun h => nomatch h

theorem shortenLine_dist (points : List Vec) (index : Nat) (len : ℝ)
    (hlen : 0 ≤ len) (hidx : index < points.length)
    (hne : points.getD (if index = 0 then 1 else index - 1) (0, 0) ≠
      points.getD index (0, 0)) :
    vdist ((shortenLine points index len).getD index (0, 0))
      (points.getD index (0, 0)) = len := by
  unfold shortenLine
  rw [List.getD_eq_getElem?_getD, List.getElem?_set, if_pos rfl, if_pos hidx]
  show vdist (points.getD index (0, 0) + len • vnormalize _) (points.getD index (0, 0)) = len
  rw [vdist_add_left, vnorm_smul, vnorm_vnormalize (sub_ne_zero.mpr hne),
    abs_of_nonneg hlen]
  ring

/-- Claim C5.  When the two-road node is classified width-transition, the
`ComplexConnector` construction shortens each road's polyline at its
junction-end index by exactly `|width_2 - width_1| * scale`: the stored
lines are the shortened ones, and the moved endpoint lies at exactly that
distance from its old position whenever the end segment is nondegenerate. -/
theorem complex_connector_shortens (roads : List Road) (flinger : Flinger) (scale : ℚ)
    (nodeId ri1 i1 ri2 i2 : Nat)
    (hc : ¬ simpleCond roads ri1 i1 ri2 i2) (hne : ri1 ≠ ri2)
    (h1 : ri1 < roads.length) (h2 : ri2 < roads.length) (hscale : 0 ≤ scale) :
    (((resolveNode roads flinger scale nodeId [(ri1, i1), (ri2, i2)]).2.getD ri1
        defaultRoad).line =
      shortenLine (roads.getD ri1 defaultRoad).line i1
        (((|(roads.getD ri2 defaultRoad).width - (roads.getD ri1 defaultRoad).width| *
          scale : ℚ) : ℝ))) ∧
    (((resolveNode roads flinger scale nodeId [(ri1, i1), (ri2, i2)]).2.getD ri2
        defaultRoad).line =
      shortenLine (roads.getD ri2 defaultRoad).line i2
        (((|(roads.getD ri2 defaultRoad).width - (roads.getD ri1 defaultRoad).width| *
          scale : ℚ) : ℝ))) ∧
    (i1 < (roads.getD ri1 defaultRoad).line.length →
      (roads.getD ri1 defaultRoad).line.getD (if i1 = 0 then 1 else i1 - 1) (0, 0) ≠
        (roads.getD ri1 defaultRoad).line.getD i1 (0, 0) →
      vdist
        (((resolveNode roads flinger scale nodeId [(ri1, i1), (ri2, i2)]).2.getD ri1
          defaultRoad).line.getD i1 (0, 0))
        ((roads.getD ri1 defaultRoad).line.getD i1 (0, 0)) =
      ((|(roads.getD ri2 defaultRoad).width - (roads.getD ri1 defaultRoad).width| *
        scale : ℚ) : ℝ)) ∧
    (i2 < (roads.getD ri2 defaultRoad).line.length →
      (roads.getD ri2 defaultRoad).line.getD (if i2 = 0 then 1 else i2 - 1) (0, 0) ≠
        (roads.getD ri2 defaultRoad).line.getD i2 (0, 0) →
      vdist
        (((resolveNode roads flinger scale nodeId [(ri1, i1), (ri2, i2)]).2.getD ri2
          defaultRoad).line.getD i2 (0, 0))
        ((roads.getD ri2 defaultRoad).line.getD i2 (0, 0)) =
      ((|(roads.getD ri2 defaultRoad).width - (roads.getD ri1 defaultRoad).width| *
        scale : ℚ) : ℝ)) := by
  have hlen0 : (0 : ℝ) ≤
      ((|(roads.getD ri2 defaultRoad).width - (roads.getD ri1 defaultRoad).width| *
        scale : ℚ) : ℝ) := by
    rw [Rat.cast_nonneg]
    exact mul_nonneg (abs_nonneg _) hscale
  have hres : (resolveNode roads flinger scale nodeId [(ri1, i1), (ri2, i2)]).2 =
      (roads.set ri1 { roads.getD ri1 defaultRoad with
          line := shortenLine (roads.getD ri1 defaultRoad).line i1
            (((|(roads.getD ri2 defaultRoad).width -
              (roads.getD ri1 defaultRoad).width| * scale : ℚ) : ℝ)) }).set ri2
        { (roads.set ri1 { roads.getD ri1 defaultRoad with
            line := shortenLine (roads.getD ri1 defaultRoad).line i1
              (((|(roads.getD ri2 defaultRoad).width -
                (roads.getD ri1 defaultRoad).width| * scale : ℚ) : ℝ)) }).getD ri2
          defaultRoad with
          line := shortenLine
            ((roads.set ri1 { roads.getD ri1 defaultRoad with
              line := shortenLine (roads.getD ri1 defaultRoad).line i1
                (((|(roads.getD ri2 defaultRoad).width -
                  (roads.getD ri1 defaultRoad).width| * scale : ℚ) : ℝ)) }).getD ri2
              defaultRoad).line i2
            (((|(roads.getD ri2 defaultRoad).width -
              (roads.getD ri1 defaultRoad).width| * scale : ℚ) : ℝ)) } := by
    unfold resolveNode
    dsimp only
    rw [if_neg hc]
  have hb : (roads.set ri1 { roads.getD ri1 defaultRoad with
      line := shortenLine (roads.getD ri1 defaultRoad).line i1
        (((|(roads.getD ri2 defaultRoad).width -
          (roads.getD ri1 defaultRoad).width| * scale : ℚ) : ℝ)) }).getD ri2
      defaultRoad = roads.getD ri2 defaultRoad := by
    rw [List.getD_eq_getElem?_getD, List.getElem?_set, if_neg hne,
      ← List.getD_eq_getElem?_getD]
  have hA : ((resolveNode roads flinger scale nodeId [(ri1, i1), (ri2, i2)]).2.getD ri1
      defaultRoad) = { roads.getD ri1 defaultRoad with
        line := shortenLine (roads.getD ri1 defaultRoad).line i1
          (((|(roads.getD ri2 defaultRoad).width -
            (roads.getD ri1 defaultRoad).width| * scale : ℚ) : ℝ)) } := by
    rw [hres, List.getD_eq_getElem?_getD, List.getElem?_set,
      if_neg (fun h => hne h.symm), List.getElem?_set, if_pos rfl, if_pos h1]
    rfl
  have hB : ((resolveNode roads flinger scale nodeId [(ri1, i1), (ri2, i2)]).2.getD ri2
      defaultRoad) = { roads.getD ri2 defaultRoad with
        line := shortenLine (roads.getD ri2 defaultRoad).line i2
          (((|(roads.getD ri2 defaultRoad).width -
            (roads.getD ri1 defaultRoad).width| * scale : ℚ) : ℝ)) } := by
    rw [hres, List.getD_eq_getElem?_getD, List.getElem?_set, if_pos rfl]
    rw [List.length_set, if_pos h2]
    simp only [Option.getD_some]
    rw [hb]
  refine ⟨by rw [hA], by rw [hB], ?_, ?_⟩
  · intro hi hnz
    rw [hA]
    exact shortenLine_dist _ _ _ hlen0 hi hnz
  · intro hi hnz
    rw [hB]
    exact shortenLine_dist _ _ _ hlen0 hi hnz

/-- Identity projector with unit scale, used by concrete examples. -/
noncomputable def idFlinger : Flinger := ⟨fun v => v, fun _ => 1⟩

/-- Road `[(0,0), (10,0)]` of width 6, the end-to-end example of the spec. -/
noncomputable def cxRoadA : Road :=
  { tags := [], nodes := [⟨1, ((0 : ℝ), (0 : ℝ))⟩, ⟨2, ((10 : ℝ), (0 : ℝ))⟩],
    matcher := ⟨1, 1⟩, line := [((0 : ℝ), (0 : ℝ)), ((10 : ℝ), (0 : ℝ))],
    width := 6, laneRefs := [], laneHeap := [], layer := 0 }

/-- Road `[(10,0), (20,0)]` of width 10, the end-to-end example of the spec. -/
noncomputable def cxRoadB : Road :=
  { tags := [], nodes := [⟨2, ((10 : ℝ), (0 : ℝ))⟩, ⟨3, ((20 : ℝ), (0 : ℝ))⟩],
    matcher := ⟨1, 1⟩, line := [((10 : ℝ), (0 : ℝ)), ((20 : ℝ), (0 : ℝ))],
    width := 10, laneRefs := [], laneHeap := [], layer := 0 }

theorem complex_connector_shortens_witness :
    ¬ simpleCond [cxRoadA, cxRoadB] 0 1 1 0 ∧
    vdist
      (((resolveNode [cxRoadA, cxRoadB] idFlinger 1 2 [(0, 1), (1, 0)]).2.getD 0
        defaultRoad).line.getD 1 (0, 0))
      (([cxRoadA, cxRoadB].getD 0 defaultRoad).line.getD 1 (0, 0)) = 4 := by
  have hc : ¬ simpleCond [cxRoadA, cxRoadB] 0 1 1 0 := by decide
  have h := complex_connector_shortens [cxRoadA, cxRoadB] idFlinger 1 2 0 1 1 0 hc
    (by decide) (by decide) (by decide) (by norm_num)
  have hd := h.2.2.1 (by decide)
    (by
      show ((0 : ℝ), (0 : ℝ)) ≠ ((10 : ℝ), (0 : ℝ))
      intro hcon
      have h10 := congrArg Prod.fst hcon
      norm_num at h10)
  refine ⟨hc, hd.trans ?_⟩
  show ((|(10 : ℚ) - 6| * 1 : ℚ) : ℝ) = 4
  norm_num

theorem vnormalize_neg_x (a : ℝ) (ha : 0 < a) :
    vnormalize (((-a : ℝ), (0 : ℝ))) = ((-1 : ℝ), (0 : ℝ)) := by
  unfold vnormalize vnorm
  have h : ((-a : ℝ), (0 : ℝ)).1 ^ 2 + ((-a : ℝ), (0 : ℝ)).2 ^ 2 = a ^ 2 := by
    show (-a) ^ 2 + (0 : ℝ) ^ 2 = a ^ 2
    ring
  rw [h, Real.sqrt_sq ha.le]
  refine Prod.ext ?_ ?_
  · show a⁻¹ * -a = -1
    field_simp
  · show a⁻¹ * 0 = 0
    ring

theorem vnormalize_pos_x (a : ℝ) (ha : 0 < a) :
    vnormalize (((a : ℝ), (0 : ℝ))) = ((1 : ℝ), (0 : ℝ)) := by
  unfold vnormalize vnorm
  have h : ((a : ℝ), (0 : ℝ)).1 ^ 2 + ((a : ℝ), (0 : ℝ)).2 ^ 2 = a ^ 2 := by
    show a ^ 2 + (0 : ℝ) ^ 2 = a ^ 2
    ring
  rw [h, Real.sqrt_sq ha.le]
  refine Prod.ext ?_ ?_
  · show a⁻¹ * a = 1
    field_simp
  · show a⁻¹ * 0 = 0
    ring

theorem shortenLine_pair_end (x0 x1 len : ℝ) (h : x0 < x1) :
    shortenLine [((x0 : ℝ), (0 : ℝ)), ((x1 : ℝ), (0 : ℝ))] 1 len =
      [((x0 : ℝ), (0 : ℝ)), ((x1 - len : ℝ), (0 : ℝ))] := by
  unfold shortenLine
  have hq : (((x0 : ℝ), (0 : ℝ)) - ((x1 : ℝ), (0 : ℝ)) : Vec) = ((-(x1 - x0) : ℝ), (0 : ℝ)) := by
    refine Prod.ext ?_ ?_
    · show x0 - x1 = -(x1 - x0)
      ring
    · show (0 : ℝ) - 0 = 0
      ring
  show [((x0 : ℝ), (0 : ℝ)), ((x1 : ℝ), (0 : ℝ))].set 1
    (((x1 : ℝ), (0 : ℝ)) + len • vnormalize (((x0 : ℝ), (0 : ℝ)) - ((x1 : ℝ), (0 : ℝ)))) = _
  rw [hq, vnormalize_neg_x (x1 - x0) (by linarith)]
  have hv : (((x1 : ℝ), (0 : ℝ)) + len • (((-1 : ℝ), (0 : ℝ)) : Vec) : Vec) =
      ((x1 - len : ℝ), (0 : ℝ)) := by
    refine Prod.ext ?_ ?_
    · show x1 + len * -1 = x1 - len
      ring
    · show (0 : ℝ) + len * 0 = 0
      ring
  rw [hv]
  rfl

theorem shortenLine_pair_start (x0 x1 len : ℝ) (h : x0 < x1) :
    shortenLine [((x0 : ℝ), (0 : ℝ)), ((x1 : ℝ), (0 : ℝ))] 0 len =
      [((x0 + len : ℝ), (0 : ℝ)), ((x1 : ℝ), (0 : ℝ))] := by
  unfold shortenLine
  have hq : (((x1 : ℝ), (0 : ℝ)) - ((x0 : ℝ), (0 : ℝ)) : Vec) = ((x1 - x0 : ℝ), (0 : ℝ)) := by
    refine Prod.ext ?_ ?_
    · show x1 - x0 = x1 - x0
      rfl
    · show (0 : ℝ) - 0 = 0
      ring
  show [((x0 : ℝ), (0 : ℝ)), ((x1 : ℝ), (0 : ℝ))].set 0
    (((x0 : ℝ), (0 : ℝ)) + len • vnormalize (((x1 : ℝ), (0 : ℝ)) - ((x0 : ℝ), (0 : ℝ)))) = _
  rw [hq, vnormalize_pos_x (x1 - x0) (by linarith)]
  have hv : (((x0 : ℝ), (0 : ℝ)) + len • (((1 : ℝ), (0 : ℝ)) : Vec) : Vec) =
      ((x0 + len : ℝ), (0 : ℝ)) := by
    refine Prod.ext ?_ ?_
    · show x0 + len * 1 = x0 + len
      ring
    · show (0 : ℝ) + len * 0 = 0
      ring
  rw [hv]
  rfl

theorem resolveStep_fst (flinger : Flinger) (scale : ℚ)
    (acc : List Road × List (ℚ × List Conn)) (e : Nat × List (Nat × Nat)) :
    (resolveStep flinger scale acc e).1 = (resolveNode acc.1 flinger scale e.1 e.2).2 := by
  unfold resolveStep
  rcases h : resolveNode acc.1 flinger scale e.1 e.2 with ⟨_ | c, roads'⟩ <;> simp [h]

theorem foldl_resolveStep_fst (flinger : Flinger) (scale : ℚ)
    (adj : List (Nat × List (Nat × Nat))) :
    ∀ acc : List Road × List (ℚ × List Conn),
      (adj.foldl (resolveStep flinger scale) acc).1 =
        adj.foldl (fun roads e => (resolveNode roads flinger scale e.1 e.2).2) acc.1 := by
  induction adj with
  | nil => intro acc; rfl
  | cons e t ih =>
    intro acc
    rw [List.foldl_cons, List.foldl_cons, ih, resolveStep_fst]

/-- An adjacency entry is harmless for road geometry when it is not a
two-pair node, or when it is one that classifies width-preserving. -/
def entrySimple (roads : List Road) (pairs : List (Nat × Nat)) : Prop :=
  match pairs with
  | [(ri1, i1), (ri2, i2)] => simpleCond roads ri1 i1 ri2 i2
  | _ => True

instance (roads : List Road) : (pairs : List (Nat × Nat)) → Decidable (entrySimple roads pairs)
  | [] => isTrue trivial
  | [_] => isTrue trivial
  | [(ri1, i1), (ri2, i2)] =>
    inferInstanceAs (Decidable (simpleCond roads ri1 i1 ri2 i2))
  | _ :: _ :: _ :: _ => isTrue trivial

theorem resolveNode_simple_roads (roads : List Road) (flinger : Flinger) (scale : ℚ)
    (nid : Nat) (pairs : List (Nat × Nat)) (h : entrySimple roads pairs) :
    (resolveNode roads flinger scale nid pairs).2 = roads := by
  unfold resolveNode
  rcases pairs with _ | ⟨⟨ri1, i1⟩, _ | ⟨⟨ri2, i2⟩, _ | ⟨p3, t⟩⟩⟩
  · rfl
  · rfl
  · dsimp only
    rw [if_pos (show simpleCond roads ri1 i1 ri2 i2 from h)]
  · rfl

theorem foldl_resolve_roads (flinger : Flinger) (scale : ℚ)
    (adj : List (Nat × List (Nat × Nat))) (roads : List Road)
    (h : ∀ e ∈ adj, entrySimple roads e.2) :
    adj.foldl (fun roads e => (resolveNode roads flinger scale e.1 e.2).2) roads = roads := by
  induction adj with
  | nil => rfl
  | cons e t ih =>
    rw [List.foldl_cons, resolveNode_simple_roads _ _ _ _ _ (h e (by simp))]
    exact ih (fun e' he' => h e' (by simp [he']))

/-- Claim C6, amended (idempotence half).  When every two-pair node of the
network classifies width-preserving, the resolution pass builds only
`SimpleConnector`s, the road state is not mutated, and a second `draw`
with the same arguments is identical to the first. -/
theorem roads_draw_idempotent_when_simple (net : Network) (flinger : Flinger) (cap : Bool)
    (h : ∀ e ∈ net.nodesAdj, entrySimple net.roads e.2) :
    (net.draw flinger cap).2 = net ∧
    (net.draw flinger cap).2.draw flinger cap = net.draw flinger cap := by
  have h2 : (net.draw flinger cap).2 = net := by
    unfold Network.draw
    rcases hr : net.roads with _ | ⟨r0, rest⟩
    · rfl
    · dsimp only
      unfold resolveAll
      rw [foldl_resolveStep_fst, foldl_resolve_roads _ _ _ _ h]
  exact ⟨h2, by rw [h2]⟩

/-- Road `[(10,0), (20,0)]` of width 6 (equal-width neighbour of
`cxRoadA`). -/
noncomputable def smRoadB : Road :=
  { tags := [], nodes := [⟨2, ((10 : ℝ), (0 : ℝ))⟩, ⟨3, ((20 : ℝ), (0 : ℝ))⟩],
    matcher := ⟨1, 1⟩, line := [((10 : ℝ), (0 : ℝ)), ((20 : ℝ), (0 : ℝ))],
    width := 6, laneRefs := [], laneHeap := [], layer := 0 }

theorem roads_draw_idempotent_when_simple_witness :
    (∀ e ∈ (mkNetwork [cxRoadA, smRoadB]).nodesAdj,
      entrySimple (mkNetwork [cxRoadA, smRoadB]).roads e.2) ∧
    ((mkNetwork [cxRoadA, smRoadB]).draw idFlinger false).2 = mkNetwork [cxRoadA, smRoadB] := by
  have hh : ∀ e ∈ (mkNetwork [cxRoadA, smRoadB]).nodesAdj,
      entrySimple (mkNetwork [cxRoadA, smRoadB]).roads e.2 := by decide
  exact ⟨hh, (roads_draw_idempotent_when_simple _ idFlinger false hh).1⟩

noncomputable def cxRoadA1 : Road :=
  { cxRoadA with line := [((0 : ℝ), (0 : ℝ)), ((6 : ℝ), (0 : ℝ))] }

noncomputable def cxRoadB1 : Road :=
  { cxRoadB with line := [((14 : ℝ), (0 : ℝ)), ((20 : ℝ), (0 : ℝ))] }

noncomputable def cxRoadA2 : Road :=
  { cxRoadA with line := [((0 : ℝ), (0 : ℝ)), ((2 : ℝ), (0 : ℝ))] }

noncomputable def cxRoadB2 : Road :=
  { cxRoadB with line := [((18 : ℝ), (0 : ℝ)), ((20 : ℝ), (0 : ℝ))] }

theorem cx_resolve_round1 :
    (resolveNode [cxRoadA, cxRoadB] idFlinger 1 2 [(0, 1), (1, 0)]).2 =
      [cxRoadA1, cxRoadB1] := by
  have hc : ¬ simpleCond [cxRoadA, cxRoadB] 0 1 1 0 := by decide
  unfold resolveNode
  dsimp only
  rw [if_neg hc]
  have hL : ((|cxRoadB.width - cxRoadA.width| * 1 : ℚ) : ℝ) = 4 := by
    show ((|(10 : ℚ) - 6| * 1 : ℚ) : ℝ) = 4
    norm_num
  simp only [List.getD_cons_zero, List.getD_cons_succ, List.set_cons_zero,
    List.set_cons_succ, hL]
  show [{ cxRoadA with line := shortenLine cxRoadA.line 1 4 },
        { cxRoadB with line := shortenLine cxRoadB.line 0 4 }] = [cxRoadA1, cxRoadB1]
  have hA : shortenLine cxRoadA.line 1 4 = [((0 : ℝ), (0 : ℝ)), ((6 : ℝ), (0 : ℝ))] := by
    show shortenLine [((0 : ℝ), (0 : ℝ)), ((10 : ℝ), (0 : ℝ))] 1 4 = _
    rw [shortenLine_pair_end 0 10 4 (by norm_num)]
    norm_num
  have hB : shortenLine cxRoadB.line 0 4 = [((14 : ℝ), (0 : ℝ)), ((20 : ℝ), (0 : ℝ))] := by
    show shortenLine [((10 : ℝ), (0 : ℝ)), ((20 : ℝ), (0 : ℝ))] 0 4 = _
    rw [shortenLine_pair_start 10 20 4 (by norm_num)]
    norm_num
  rw [hA, hB]
  rfl

theorem resolveNode_one (roads : List Road) (f : Flinger) (s : ℚ) (nid : Nat)
    (p : Nat × Nat) : resolveNode roads f s nid [p] = (none, roads) := by
  rcases p with ⟨a, b⟩
  rfl

theorem cx_resolve_round2 :
    (resolveNode [cxRoadA1, cxRoadB1] idFlinger 1 2 [(0, 1), (1, 0)]).2 =
      [cxRoadA2, cxRoadB2] := by
  have hc : ¬ simpleCond [cxRoadA1, cxRoadB1] 0 1 1 0 := by decide
  unfold resolveNode
  dsimp only
  rw [if_neg hc]
  have hL : ((|cxRoadB1.width - cxRoadA1.width| * 1 : ℚ) : ℝ) = 4 := by
    show ((|(10 : ℚ) - 6| * 1 : ℚ) : ℝ) = 4
    norm_num
  simp only [List.getD_cons_zero, List.getD_cons_succ, List.set_cons_zero,
    List.set_cons_succ, hL]
  show [{ cxRoadA1 with line := shortenLine cxRoadA1.line 1 4 },
        { cxRoadB1 with line := shortenLine cxRoadB1.line 0 4 }] = [cxRoadA2, cxRoadB2]
  have hA : shortenLine cxRoadA1.line 1 4 = [((0 : ℝ), (0 : ℝ)), ((2 : ℝ), (0 : ℝ))] := by
    show shortenLine [((0 : ℝ), (0 : ℝ)), ((6 : ℝ), (0 : ℝ))] 1 4 = _
    rw [shortenLine_pair_end 0 6 4 (by norm_num)]
    norm_num
  have hB : shortenLine cxRoadB1.line 0 4 = [((18 : ℝ), (0 : ℝ)), ((20 : ℝ), (0 : ℝ))] := by
    show shortenLine [((14 : ℝ), (0 : ℝ)), ((20 : ℝ), (0 : ℝ))] 0 4 = _
    rw [shortenLine_pair_start 14 20 4 (by norm_num)]
    norm_num
  rw [hA, hB]
  rfl

theorem cx_draw_net1 :
    ((mkNetwork [cxRoadA, cxRoadB]).draw idFlinger false).2 =
      ⟨[cxRoadA1, cxRoadB1], [(1, [(0, 0)]), (2, [(0, 1), (1, 0)]), (3, [(1, 1)])]⟩ := by
  have e1 : mkNetwork [cxRoadA, cxRoadB] =
      ⟨[cxRoadA, cxRoadB], [(1, [(0, 0)]), (2, [(0, 1), (1, 0)]), (3, [(1, 1)])]⟩ := rfl
  rw [e1]
  unfold Network.draw
  dsimp only
  unfold resolveAll
  rw [foldl_resolveStep_fst]
  dsimp only
  rw [show idFlinger.scaleAt ((cxRoadA.nodes.getD 0 defaultNode).coordinates) = 1 from rfl]
  simp only [List.foldl_cons, List.foldl_nil]
  rw [resolveNode_one]
  dsimp only
  rw [resolveNode_one]
  dsimp only
  rw [cx_resolve_round1]

theorem cx_draw_net2 :
    ((⟨[cxRoadA1, cxRoadB1], [(1, [(0, 0)]), (2, [(0, 1), (1, 0)]), (3, [(1, 1)])]⟩ :
      Network).draw idFlinger false).2 =
      ⟨[cxRoadA2, cxRoadB2], [(1, [(0, 0)]), (2, [(0, 1), (1, 0)]), (3, [(1, 1)])]⟩ := by
  unfold Network.draw
  dsimp only
  unfold resolveAll
  rw [foldl_resolveStep_fst]
  dsimp only
  rw [show idFlinger.scaleAt ((cxRoadA1.nodes.getD 0 defaultNode).coordinates) = 1 from rfl]
  simp only [List.foldl_cons, List.foldl_nil]
  rw [resolveNode_one]
  dsimp only
  rw [resolveNode_one]
  dsimp only
  rw [cx_resolve_round2]

/-- Counterexample to claim C6.  `Roads.draw` re-runs connector resolution
on every call, and each `ComplexConnector` construction shortens the road
polylines again: after a second `draw` the first road's polyline differs
from its state after the first `draw`, so `draw` is not idempotent. -/
theorem roads_draw_not_idempotent :
    (((((mkNetwork [cxRoadA, cxRoadB]).draw idFlinger false).2).draw idFlinger
        false).2.roads.getD 0 defaultRoad).line ≠
      ((((mkNetwork [cxRoadA, cxRoadB]).draw idFlinger false).2).roads.getD 0
        defaultRoad).line := by
  rw [cx_draw_net1, cx_draw_net2]
  intro hcon
  have h1 : ((([cxRoadA2, cxRoadB2] : List Road).getD 0 defaultRoad).line.getD 1
      ((0 : ℝ), (0 : ℝ))).1 = 2 := rfl
  rw [hcon] at h1
  have h2 : ((([cxRoadA1, cxRoadB1] : List Road).getD 0 defaultRoad).line.getD 1
      ((0 : ℝ), (0 : ℝ))).1 = 6 := rfl
  rw [h1] at h2
  norm_num at h2

theorem bucketGet_nil {α : Type} (k : ℚ) : bucketGet ([] : List (ℚ × List α)) k = [] := rfl

theorem bucketGet_cons {α : Type} (k2 : ℚ) (vs : List α) (rest : List (ℚ × List α))
    (k' : ℚ) :
    bucketGet ((k2, vs) :: rest) k' = if k2 = k' then vs else bucketGet rest k' := by
  unfold bucketGet
  by_cases h : k2 = k' <;> simp [List.find?_cons, h]

theorem bucketGet_bucketAdd {α : Type} (m : List (ℚ × List α)) (k : ℚ) (v : α) (k' : ℚ) :
    bucketGet (bucketAdd m k v) k' =
      if k = k' then bucketGet m k' ++ [v] else bucketGet m k' := by
  induction m with
  | nil =>
    rw [show bucketAdd ([] : List (ℚ × List α)) k v = [(k, [v])] from rfl,
      bucketGet_cons]
    by_cases h : k = k' <;> simp [bucketGet, h]
  | cons hd rest ih =>
    rcases hd with ⟨k2, vs⟩
    by_cases h1 : k2 = k
    · subst h1
      rw [show bucketAdd ((k2, vs) :: rest) k2 v = (k2, vs ++ [v]) :: rest from by
        simp [bucketAdd]]
      by_cases h2 : k2 = k'
      · rw [bucketGet_cons, bucketGet_cons, if_pos h2, if_pos h2, if_pos h2]
      · rw [bucketGet_cons, bucketGet_cons, if_neg h2, if_neg h2, if_neg h2]
    · rw [show bucketAdd ((k2, vs) :: rest) k v = (k2, vs) :: bucketAdd rest k v from by
        simp [bucketAdd, h1]]
      rw [bucketGet_cons, bucketGet_cons]
      by_cases h3 : k2 = k'
      · rw [if_pos h3, if_pos h3, if_neg (fun h => h1 (h3.trans h.symm))]
      · rw [if_neg h3, if_neg h3, ih]

/-- Build layer buckets from a flat key-value list. -/
def bucketOfPairs {α : Type} (ps : List (ℚ × α)) : List (ℚ × List α) :=
  ps.foldl (fun m p => bucketAdd m p.1 p.2) []

theorem foldl_bucketAdd_get {α : Type} (ps : List (ℚ × α)) :
    ∀ (m : List (ℚ × List α)) (k : ℚ),
      bucketGet (ps.foldl (fun m p => bucketAdd m p.1 p.2) m) k =
        bucketGet m k ++ (ps.filter (fun p => decide (p.1 = k))).map (fun p => p.2) := by
  induction ps with
  | nil => intro m k; simp
  | cons p t ih =>
    intro m k
    rw [List.foldl_cons, ih, bucketGet_bucketAdd]
    by_cases h : p.1 = k <;> simp [h]

theorem bucketGet_bucketOfPairs {α : Type} (ps : List (ℚ × α)) (k : ℚ) :
    bucketGet (bucketOfPairs ps) k =
      (ps.filter (fun p => decide (p.1 = k))).map (fun p => p.2) := by
  unfold bucketOfPairs
  rw [foldl_bucketAdd_get]
  rfl

/-- Forget a road's polyline; two road lists that agree up to polylines
produce the same connector metadata. -/
def eraseLine (r : Road) : Road := { r with line := [] }

theorem set_getD_self {α : Type} (l : List α) (i : Nat) (d : α) :
    l.set i (l.getD i d) = l := by
  apply List.ext_getElem?
  intro n
  rw [List.getElem?_set]
  split_ifs with h1 h2
  · subst h1
    rw [List.getD_eq_getElem _ _ h2]
    exact (List.getElem?_eq_getElem h2).symm
  · subst h1
    rw [List.getElem?_eq_none (by omega)]
  · rfl

theorem eraseLine_width {r r2 : Road} (h : eraseLine r = eraseLine r2) :
    r.width = r2.width := by
  have h2 := congrArg Road.width h
  exact h2

theorem eraseLine_nodes {r r2 : Road} (h : eraseLine r = eraseLine r2) :
    r.nodes = r2.nodes := by
  have h2 := congrArg Road.nodes h
  exact h2

theorem eraseLine_layer {r r2 : Road} (h : eraseLine r = eraseLine r2) :
    r.layer = r2.layer := by
  have h2 := congrArg Road.layer h
  exact h2

theorem eraseLine_matcher {r r2 : Road} (h : eraseLine r = eraseLine r2) :
    r.matcher = r2.matcher := by
  have h2 := congrArg Road.matcher h
  exact h2

theorem map_eraseLine_getD (roads : List Road) (i : Nat) :
    (roads.map eraseLine).getD i (eraseLine defaultRoad) =
      eraseLine (roads.getD i defaultRoad) := by
  by_cases hi : i < roads.length
  · rw [List.getD_eq_getElem _ _ (show i < (roads.map eraseLine).length by
      rw [List.length_map]; exact hi), List.getElem_map, List.getD_eq_getElem _ _ hi]
  · rw [List.getD_eq_getElem?_getD, List.getElem?_eq_none (by rw [List.length_map]; omega),
      List.getD_eq_getElem?_getD, List.getElem?_eq_none (by omega)]
    rfl

theorem eraseLine_getD {roads roads' : List Road}
    (h : roads.map eraseLine = roads'.map eraseLine) (i : Nat) :
    eraseLine (roads.getD i defaultRoad) = eraseLine (roads'.getD i defaultRoad) := by
  rw [← map_eraseLine_getD, ← map_eraseLine_getD, h]

theorem resolveNode_fst_congr (roads roads' : List Road) (f : Flinger) (s : ℚ)
    (nid : Nat) (pairs : List (Nat × Nat))
    (h : roads.map eraseLine = roads'.map eraseLine) :
    (resolveNode roads f s nid pairs).1 = (resolveNode roads' f s nid pairs).1 := by
  rcases pairs with _ | ⟨⟨ri1, i1⟩, _ | ⟨⟨ri2, i2⟩, _ | ⟨p3, t⟩⟩⟩
  · rfl
  · rfl
  · have hw1 := eraseLine_width (eraseLine_getD h ri1)
    have hw2 := eraseLine_width (eraseLine_getD h ri2)
    have hn1 := eraseLine_nodes (eraseLine_getD h ri1)
    have hn2 := eraseLine_nodes (eraseLine_getD h ri2)
    have hl1 := eraseLine_layer (eraseLine_getD h ri1)
    have hl2 := eraseLine_layer (eraseLine_getD h ri2)
    have hm1 := eraseLine_matcher (eraseLine_getD h ri1)
    have hcond : simpleCond roads ri1 i1 ri2 i2 ↔ simpleCond roads' ri1 i1 ri2 i2 := by
      unfold simpleCond
      rw [hw1, hw2, hn1, hn2]
    unfold resolveNode
    dsimp only
    by_cases hc : simpleCond roads ri1 i1 ri2 i2
    · rw [if_pos hc, if_pos (hcond.mp hc)]
      dsimp only
      rw [hn1, hl1, hl2, hm1]
    · rw [if_neg hc, if_neg (fun hx => hc (hcond.mpr hx))]
      dsimp only
      rw [hn1, hl1, hl2, hm1]
  · rfl

theorem map_eraseLine_set_line (roads : List Road) (i : Nat) (g : Road → List Vec) :
    (roads.set i
      { roads.getD i defaultRoad with line := g (roads.getD i defaultRoad) }).map
        eraseLine = roads.map eraseLine := by
  rw [List.map_set]
  have hA' := (map_eraseLine_getD roads i).symm
  have hA : eraseLine { roads.getD i defaultRoad with
      line := g (roads.getD i defaultRoad) } =
      (roads.map eraseLine).getD i (eraseLine defaultRoad) := hA'
  rw [hA, set_getD_self]

theorem resolveNode_snd_eraseLine (roads : List Road) (f : Flinger) (s : ℚ)
    (nid : Nat) (pairs : List (Nat × Nat)) :
    (resolveNode roads f s nid pairs).2.map eraseLine = roads.map eraseLine := by
  rcases pairs with _ | ⟨⟨ri1, i1⟩, _ | ⟨⟨ri2, i2⟩, _ | ⟨p3, t⟩⟩⟩
  · rfl
  · rfl
  · unfold resolveNode
    dsimp only
    by_cases hc : simpleCond roads ri1 i1 ri2 i2
    · rw [if_pos hc]
    · rw [if_neg hc]
      dsimp only
      have h1 := map_eraseLine_set_line roads ri1
        (fun r => shortenLine r.line i1
          ((|(roads.getD ri2 defaultRoad).width -
            (roads.getD ri1 defaultRoad).width| * s : ℚ) : ℝ))
      have h2 := map_eraseLine_set_line
        (roads.set ri1 { roads.getD ri1 defaultRoad with
          line := shortenLine (roads.getD ri1 defaultRoad).line i1
            ((|(roads.getD ri2 defaultRoad).width -
              (roads.getD ri1 defaultRoad).width| * s : ℚ) : ℝ) }) ri2
        (fun r => shortenLine r.line i2
          ((|(roads.getD ri2 defaultRoad).width -
            (roads.getD ri1 defaultRoad).width| * s : ℚ) : ℝ))
      exact h2.trans h1
  · rfl

/-- The `(layer, connector)` registrations the resolution loop performs,
computed against the initial road list (valid because connector metadata
ignores polylines). -/
noncomputable def connPairs (roads : List Road) (f : Flinger) (s : ℚ)
    (adj : List (Nat × List (Nat × Nat))) : List (ℚ × Conn) :=
  adj.flatMap (fun e =>
    match (resolveNode roads f s e.1 e.2).1 with
    | none => []
    | some c => [(c.min_layer, c), (c.max_layer, c)])

theorem foldl_resolveStep_snd (f : Flinger) (s : ℚ) (roads0 : List Road)
    (adj : List (Nat × List (Nat × Nat))) :
    ∀ (roads : List Road) (m : List (ℚ × List Conn)),
      roads.map eraseLine = roads0.map eraseLine →
      (adj.foldl (resolveStep f s) (roads, m)).2 =
        (connPairs roads0 f s adj).foldl (fun m p => bucketAdd m p.1 p.2) m := by
  induction adj with
  | nil => intro roads m h; rfl
  | cons e t ih =>
    intro roads m h
    rw [List.foldl_cons]
    unfold connPairs
    rw [List.flatMap_cons, List.foldl_append]
    rcases hres : resolveNode roads f s e.1 e.2 with ⟨opt, roads'⟩
    have hopt : (resolveNode roads0 f s e.1 e.2).1 = opt := by
      rw [← resolveNode_fst_congr roads roads0 f s e.1 e.2 h, hres]
    have hpres : roads'.map eraseLine = roads0.map eraseLine := by
      have h2 := resolveNode_snd_eraseLine roads f s e.1 e.2
      rw [hres] at h2
      exact h2.trans h
    cases opt with
    | none =>
      rw [show resolveStep f s (roads, m) e = (roads', m) from by
        unfold resolveStep; rw [hres]]
      rw [hopt]
      exact ih roads' m hpres
    | some c =>
      rw [show resolveStep f s (roads, m) e =
          (roads', bucketAdd (bucketAdd m c.min_layer c) c.max_layer c) from by
        unfold resolveStep; rw [hres]]
      rw [hopt]
      exact ih roads' _ hpres

theorem resolveAll_snd_eq (net : Network) (f : Flinger) (s : ℚ) :
    (resolveAll net f s).2 = bucketOfPairs (connPairs net.roads f s net.nodesAdj) := by
  unfold resolveAll bucketOfPairs
  exact foldl_resolveStep_snd f s net.roads net.nodesAdj net.roads [] rfl

theorem mkNetwork_roads_aux (rs : List Road) :
    ∀ net : Network, (rs.foldl Network.append net).roads = net.roads ++ rs := by
  induction rs with
  | nil => intro net; simp
  | cons r t ih =>
    intro net
    rw [List.foldl_cons, ih]
    show (net.roads ++ [r]) ++ t = net.roads ++ r :: t
    simp

theorem mkNetwork_roads (rs : List Road) : (mkNetwork rs).roads = rs := by
  unfold mkNetwork
  rw [mkNetwork_roads_aux]
  rfl

/-- All `(road, index)` references stored in an adjacency list point below
`n`. -/
def adjVal (adj : List (Nat × List (Nat × Nat))) (n : Nat) : Prop :=
  ∀ e ∈ adj, ∀ p ∈ e.2, p.1 < n

theorem adjAdd_keys_mem (adj : List (Nat × List (Nat × Nat))) (k : Nat) (v : Nat × Nat)
    (k' : Nat) :
    k' ∈ (adjAdd adj k v).map (fun e => e.1) ↔
      k' = k ∨ k' ∈ adj.map (fun e => e.1) := by
  induction adj with
  | nil => simp [adjAdd]
  | cons hd rest ih =>
    rcases hd with ⟨k2, vs⟩
    by_cases h : k2 = k
    · subst h
      rw [show adjAdd ((k2, vs) :: rest) k2 v = (k2, vs ++ [v]) :: rest from by
        simp [adjAdd]]
      simp
    · rw [show adjAdd ((k2, vs) :: rest) k v = (k2, vs) :: adjAdd rest k v from by
        simp [adjAdd, h]]
      simp [ih]
      tauto

theorem adjAdd_keys_nodup (adj : List (Nat × List (Nat × Nat))) (k : Nat) (v : Nat × Nat)
    (h : (adj.map (fun e => e.1)).Nodup) :
    ((adjAdd adj k v).map (fun e => e.1)).Nodup := by
  induction adj with
  | nil => simp [adjAdd]
  | cons hd rest ih =>
    rcases hd with ⟨k2, vs⟩
    rw [List.map_cons, List.nodup_cons] at h
    by_cases hk : k2 = k
    · subst hk
      rw [show adjAdd ((k2, vs) :: rest) k2 v = (k2, vs ++ [v]) :: rest from by
        simp [adjAdd]]
      rw [List.map_cons, List.nodup_cons]
      exact h
    · rw [show adjAdd ((k2, vs) :: rest) k v = (k2, vs) :: adjAdd rest k v from by
        simp [adjAdd, hk]]
      rw [List.map_cons, List.nodup_cons]
      refine ⟨fun hmem => ?_, ih h.2⟩
      rw [adjAdd_keys_mem] at hmem
      rcases hmem with hmem | hmem
      · exact hk hmem
      · exact h.1 hmem

theorem adjAdd_val (adj : List (Nat × List (Nat × Nat))) (k : Nat) (v : Nat × Nat)
    (n : Nat) (h : adjVal adj n) (hv : v.1 < n) : adjVal (adjAdd adj k v) n := by
  induction adj with
  | nil =>
    intro e he p hp
    simp [adjAdd] at he
    subst he
    simp at hp
    rw [hp]
    exact hv
  | cons hd rest ih =>
    rcases hd with ⟨k2, vs⟩
    by_cases hk : k2 = k
    · subst hk
      rw [show adjAdd ((k2, vs) :: rest) k2 v = (k2, vs ++ [v]) :: rest from by
        simp [adjAdd]]
      intro e he p hp
      rcases List.mem_cons.mp he with he2 | he2
      · subst he2
        rcases List.mem_append.mp hp with hp2 | hp2
        · exact h (k2, vs) (by simp) p hp2
        · rw [List.mem_singleton.mp hp2]
          exact hv
      · exact h e (List.mem_cons_of_mem _ he2) p hp
    · rw [show adjAdd ((k2, vs) :: rest) k v = (k2, vs) :: adjAdd rest k v from by
        simp [adjAdd, hk]]
      intro e he p hp
      rcases List.mem_cons.mp he with he2 | he2
      · subst he2
        exact h (k2, vs) (by simp) p hp
      · exact ih (fun e2 he3 p2 hp2 => h e2 (List.mem_cons_of_mem _ he3) p2 hp2) e he2 p hp

theorem foldl_adjAdd_facts (l : List (Nat × OSMNode)) (ri n : Nat) (hr : ri < n) :
    ∀ adj : List (Nat × List (Nat × Nat)),
      (adj.map (fun e => e.1)).Nodup → adjVal adj n →
      (((l.foldl (fun adj p => adjAdd adj p.2.id_ (ri, p.1)) adj).map
        (fun e => e.1)).Nodup ∧
       adjVal (l.foldl (fun adj p => adjAdd adj p.2.id_ (ri, p.1)) adj) n) := by
  induction l with
  | nil => intro adj h1 h2; exact ⟨h1, h2⟩
  | cons p t ih =>
    intro adj h1 h2
    rw [List.foldl_cons]
    exact ih _ (adjAdd_keys_nodup _ _ _ h1) (adjAdd_val _ _ _ _ h2 hr)

theorem adjVal_mono {adj : List (Nat × List (Nat × Nat))} {n m : Nat}
    (h : adjVal adj n) (hnm : n ≤ m) : adjVal adj m :=
  fun e he p hp => lt_of_lt_of_le (h e he p hp) hnm

theorem mkNetwork_wf_aux (rs : List Road) :
    ∀ net : Network,
      (net.nodesAdj.map (fun e => e.1)).Nodup → adjVal net.nodesAdj net.roads.length →
      (((rs.foldl Network.append net).nodesAdj.map (fun e => e.1)).Nodup ∧
       adjVal (rs.foldl Network.append net).nodesAdj
         (rs.foldl Network.append net).roads.length) := by
  induction rs with
  | nil => intro net h1 h2; exact ⟨h1, h2⟩
  | cons r t ih =>
    intro net h1 h2
    rw [List.foldl_cons]
    have hfacts := foldl_adjAdd_facts r.nodes.enum net.roads.length
      (net.roads.length + 1) (by omega) net.nodesAdj h1
      (adjVal_mono h2 (by omega))
    have hroads : (net.append r).roads.length = net.roads.length + 1 := by
      show (net.roads ++ [r]).length = _
      simp
    refine ih (net.append r) hfacts.1 ?_
    rw [hroads]
    exact hfacts.2

theorem mkNetwork_keys_nodup (rs : List Road) :
    ((mkNetwork rs).nodesAdj.map (fun e => e.1)).Nodup :=
  (mkNetwork_wf_aux rs ⟨[], []⟩ (by simp) (fun e he => absurd he (by simp))).1

theorem mkNetwork_adjVal (rs : List Road) :
    adjVal (mkNetwork rs).nodesAdj rs.length := by
  have h := (mkNetwork_wf_aux rs ⟨[], []⟩ (by simp) (fun e he => absurd he (by simp))).2
  have h2 : (List.foldl Network.append ⟨[], []⟩ rs).roads.length = rs.length := by
    have h3 := mkNetwork_roads rs
    unfold mkNetwork at h3
    rw [h3]
  rw [h2] at h
  exact h

theorem adj_entry_unique {adj : List (Nat × List (Nat × Nat))}
    (h : (adj.map (fun e => e.1)).Nodup) {n : Nat} {l1 l2 : List (Nat × Nat)}
    (h1 : (n, l1) ∈ adj) (h2 : (n, l2) ∈ adj) : l1 = l2 := by
  have := List.inj_on_of_nodup_map h h1 h2 rfl
  exact congrArg Prod.snd this

theorem bucketAdd_keys_mem {α : Type} (m : List (ℚ × List α)) (k : ℚ) (v : α) (k' : ℚ) :
    k' ∈ (bucketAdd m k v).map (fun e => e.1) ↔
      k' = k ∨ k' ∈ m.map (fun e => e.1) := by
  induction m with
  | nil => simp [bucketAdd]
  | cons hd rest ih =>
    rcases hd with ⟨k2, vs⟩
    by_cases h : k2 = k
    · subst h
      rw [show bucketAdd ((k2, vs) :: rest) k2 v = (k2, vs ++ [v]) :: rest from by
        simp [bucketAdd]]
      simp
    · rw [show bucketAdd ((k2, vs) :: rest) k v = (k2, vs) :: bucketAdd rest k v from by
        simp [bucketAdd, h]]
      simp [ih]
      tauto

theorem bucketAdd_keys_nodup {α : Type} (m : List (ℚ × List α)) (k : ℚ) (v : α)
    (h : (m.map (fun e => e.1)).Nodup) :
    ((bucketAdd m k v).map (fun e => e.1)).Nodup := by
  induction m with
  | nil => simp [bucketAdd]
  | cons hd rest ih =>
    rcases hd with ⟨k2, vs⟩
    rw [List.map_cons, List.nodup_cons] at h
    by_cases hk : k2 = k
    · subst hk
      rw [show bucketAdd ((k2, vs) :: rest) k2 v = (k2, vs ++ [v]) :: rest from by
        simp [bucketAdd]]
      rw [List.map_cons, List.nodup_cons]
      exact h
    · rw [show bucketAdd ((k2, vs) :: rest) k v = (k2, vs) :: bucketAdd rest k v from by
        simp [bucketAdd, hk]]
      rw [List.map_cons, List.nodup_cons]
      refine ⟨fun hmem => ?_, ih h.2⟩
      rw [bucketAdd_keys_mem] at hmem
      rcases hmem with hmem | hmem
      · exact hk hmem
      · exact h.1 hmem

theorem foldl_bucketAdd_keys_mem {α : Type} (ps : List (ℚ × α)) :
    ∀ (m : List (ℚ × List α)) (k' : ℚ),
      k' ∈ ((ps.foldl (fun m p => bucketAdd m p.1 p.2) m).map (fun e => e.1)) ↔
        k' ∈ m.map (fun e => e.1) ∨ k' ∈ ps.map (fun p => p.1) := by
  induction ps with
  | nil => intro m k'; simp
  | cons p t ih =>
    intro m k'
    rw [List.foldl_cons, ih, bucketAdd_keys_mem]
    simp
    tauto

theorem foldl_bucketAdd_keys_nodup {α : Type} (ps : List (ℚ × α)) :
    ∀ m : List (ℚ × List α), (m.map (fun e => e.1)).Nodup →
      ((ps.foldl (fun m p => bucketAdd m p.1 p.2) m).map (fun e => e.1)).Nodup := by
  induction ps with
  | nil => intro m h; exact h
  | cons p t ih =>
    intro m h
    rw [List.foldl_cons]
    exact ih _ (bucketAdd_keys_nodup _ _ _ h)

theorem bucketOfPairs_keys_mem {α : Type} (ps : List (ℚ × α)) (k' : ℚ) :
    k' ∈ (bucketOfPairs ps).map (fun e => e.1) ↔ k' ∈ ps.map (fun p => p.1) := by
  unfold bucketOfPairs
  rw [foldl_bucketAdd_keys_mem]
  simp

theorem bucketOfPairs_keys_nodup {α : Type} (ps : List (ℚ × α)) :
    ((bucketOfPairs ps).map (fun e => e.1)).Nodup :=
  foldl_bucketAdd_keys_nodup ps [] (by simp)

theorem layerRoads_eq (roads : List Road) :
    layerRoads roads = bucketOfPairs (roads.enum.map (fun p => (p.2.layer, p.1))) := by
  unfold layerRoads bucketOfPairs
  rw [List.foldl_map]

theorem mem_bucketGet_layerRoads (roads : List Road) (L : ℚ) (r : Nat) :
    r ∈ bucketGet (layerRoads roads) L ↔
      r < roads.length ∧ (roads.getD r defaultRoad).layer = L := by
  rw [layerRoads_eq, bucketGet_bucketOfPairs]
  constructor
  · intro h
    rw [List.mem_map] at h
    obtain ⟨p, hp, hp2⟩ := h
    rw [List.mem_filter] at hp
    obtain ⟨hp1, hp3⟩ := hp
    rw [List.mem_map] at hp1
    obtain ⟨q, hq, hq2⟩ := hp1
    rw [List.mem_enum_iff_getElem?] at hq
    have hq1 : q.1 = r := by
      rw [← hp2, ← hq2]
    have hlt : q.1 < roads.length := List.getElem?_eq_some_iff.mp hq |>.1
    have hval : roads.getD q.1 defaultRoad = q.2 := by
      rw [List.getD_eq_getElem?_getD, hq]
      rfl
    have hlay : q.2.layer = L := by
      have h5 := of_decide_eq_true hp3
      rw [← hq2] at h5
      exact h5
    rw [← hq1, hval]
    exact ⟨hlt, hlay⟩
  · intro ⟨h1, h2⟩
    rw [List.mem_map]
    refine ⟨((roads.getD r defaultRoad).layer, r), ?_, rfl⟩
    rw [List.mem_filter]
    constructor
    · rw [List.mem_map]
      refine ⟨(r, roads.getD r defaultRoad), ?_, rfl⟩
      rw [List.mem_enum_iff_getElem?]
      rw [List.getD_eq_getElem _ _ h1]
      exact List.getElem?_eq_getElem h1
    · rw [decide_eq_true_iff]
      exact h2

theorem sorted_nodup_split {l : List ℚ} (hs : List.Sorted (fun a b : ℚ => a ≤ b) l)
    (hn : l.Nodup) {L : ℚ} (hm : L ∈ l) :
    ∃ l1 l2, l = l1 ++ L :: l2 ∧ (∀ k ∈ l1, k < L) ∧ (∀ k ∈ l2, L < k) := by
  obtain ⟨l1, l2, rfl⟩ := List.append_of_mem hm
  refine ⟨l1, l2, rfl, ?_, ?_⟩
  · intro k hk
    rw [List.Sorted, List.pairwise_append] at hs
    have hle : k ≤ L := hs.2.2 k hk L (by simp)
    have hne : k ≠ L := by
      intro heq
      subst heq
      rw [List.nodup_append] at hn
      exact hn.2.2 hk (by simp)
    exact lt_of_le_of_ne hle hne
  · intro k hk
    rw [List.Sorted, List.pairwise_append] at hs
    have hle : L ≤ k := (List.pairwise_cons.mp hs.2.1).1 k hk
    have hne : L ≠ k := by
      intro heq
      subst heq
      rw [List.nodup_append] at hn
      have := hn.2.1
      rw [List.nodup_cons] at this
      exact this.1 hk
    exact lt_of_le_of_ne hle hne

theorem resolveNode_some_node {roads : List Road} {f : Flinger} {s : ℚ} {nid : Nat}
    {pairs : List (Nat × Nat)} {c : Conn}
    (h : (resolveNode roads f s nid pairs).1 = some c) : c.node = nid := by
  rcases pairs with _ | ⟨⟨ri1, i1⟩, _ | ⟨⟨ri2, i2⟩, _ | ⟨p3, t⟩⟩⟩
  · exact absurd h (by simp [resolveNode])
  · exact absurd h (by simp [resolveNode])
  · unfold resolveNode at h
    dsimp only at h
    split_ifs at h
    · injection h with h2
      rw [← h2]
    · injection h with h2
      rw [← h2]
  · exact absurd h (by simp [resolveNode])

theorem resolveNode_two (roads : List Road) (f : Flinger) (s : ℚ)
    (nid ri1 i1 ri2 i2 : Nat) :
    ∃ c, (resolveNode roads f s nid [(ri1, i1), (ri2, i2)]).1 = some c ∧
      c.node = nid ∧
      c.min_layer = min (roads.getD ri1 defaultRoad).layer
        (roads.getD ri2 defaultRoad).layer ∧
      c.max_layer = max (roads.getD ri1 defaultRoad).layer
        (roads.getD ri2 defaultRoad).layer := by
  unfold resolveNode
  dsimp only
  by_cases hc : simpleCond roads ri1 i1 ri2 i2
  · rw [if_pos hc]
    exact ⟨_, rfl, rfl, rfl, rfl⟩
  · rw [if_neg hc]
    exact ⟨_, rfl, rfl, rfl, rfl⟩

theorem connPairs_node_mem_keys {roads : List Road} {f : Flinger} {s : ℚ}
    {adj : List (Nat × List (Nat × Nat))} {p : ℚ × Conn}
    (hp : p ∈ connPairs roads f s adj) :
    p.2.node ∈ adj.map (fun e => e.1) := by
  unfold connPairs at hp
  rw [List.mem_flatMap] at hp
  obtain ⟨e, he, hmem⟩ := hp
  rcases hres : (resolveNode roads f s e.1 e.2).1 with _ | c2
  · rw [hres] at hmem
    simp at hmem
  · rw [hres] at hmem
    simp only [List.mem_cons, List.not_mem_nil, or_false] at hmem
    have hnode2 : c2.node = e.1 := resolveNode_some_node hres
    have hp2 : p.2 = c2 := by
      rcases hmem with h | h
      · rw [h]
      · rw [h]
    rw [List.mem_map]
    exact ⟨e, he, by rw [← hnode2, hp2]⟩

theorem connPairs_node_eq {roads : List Road} {f : Flinger} {s : ℚ}
    {adj : List (Nat × List (Nat × Nat))}
    (hn : (adj.map (fun e => e.1)).Nodup)
    {nid : Nat} {pairs : List (Nat × Nat)} (he : (nid, pairs) ∈ adj)
    {c : Conn} (hc : (resolveNode roads f s nid pairs).1 = some c)
    {p : ℚ × Conn} (hp : p ∈ connPairs roads f s adj) (hnode : p.2.node = nid) :
    p.2 = c ∧ (p.1 = c.min_layer ∨ p.1 = c.max_layer) := by
  unfold connPairs at hp
  rw [List.mem_flatMap] at hp
  obtain ⟨e, he2, hmem⟩ := hp
  rcases hres : (resolveNode roads f s e.1 e.2).1 with _ | c2
  · rw [hres] at hmem
    simp at hmem
  · rw [hres] at hmem
    simp only [List.mem_cons, List.not_mem_nil, or_false] at hmem
    have hnode2 : c2.node = e.1 := resolveNode_some_node hres
    have hp2 : p.2 = c2 := by
      rcases hmem with h | h
      · rw [h]
      · rw [h]
    have hkey : e.1 = nid := by
      rw [← hnode2, ← hp2, hnode]
    have he3 : (nid, e.2) ∈ adj := by
      rw [← hkey]
      exact he2
    have hpairs : e.2 = pairs := adj_entry_unique hn he3 he
    have hceq : c2 = c := by
      have h4 : (resolveNode roads f s nid pairs).1 = some c2 := by
        rw [← hkey, ← hpairs]
        exact hres
      have h5 := h4.symm.trans hc
      exact Option.some.inj h5
    refine ⟨hp2.trans hceq, ?_⟩
    rcases hmem with h | h
    · left
      rw [show p.1 = c2.min_layer from by rw [h], hceq]
    · right
      rw [show p.1 = c2.max_layer from by rw [h], hceq]

theorem before_append {α : Type} {l1 l2 : List α} {x y : α}
    (hx : x ∉ l2) (hy : y ∉ l1) :
    ∀ i j : Nat, (l1 ++ l2)[i]? = some x → (l1 ++ l2)[j]? = some y → i < j := by
  intro i j hi hj
  have hilt : i < l1.length := by
    by_contra hge
    rw [List.getElem?_append_right (show l1.length ≤ i by omega)] at hi
    exact hx (List.getElem?_mem hi)
  have hjge : l1.length ≤ j := by
    by_contra hlt
    rw [List.getElem?_append_left (show j < l1.length by omega)] at hj
    exact hy (List.getElem?_mem hj)
  omega

theorem network_draw_eq (net : Network) (f : Flinger) (cap : Bool) (r0 : Road)
    (rt : List Road) (h : net.roads = r0 :: rt) :
    (net.draw f cap).1 =
      (List.insertionSort (fun a b : ℚ => a ≤ b)
          ((layerRoads net.roads).map (fun kv => kv.1))).flatMap
        (layerBlock
          (resolveAll net f (f.scaleAt ((r0.nodes.getD 0 defaultNode).coordinates))).1
          (resolveAll net f (f.scaleAt ((r0.nodes.getD 0 defaultNode).coordinates))).2
          (layerRoads net.roads))
      ++ (if cap then (List.range net.roads.length).map Event.caption else []) := by
  unfold Network.draw
  rw [h]
  dsimp only
  by_cases hc : cap
  · rw [if_pos hc, if_pos hc, ← h]
  · rw [if_neg hc, if_neg hc, List.append_nil, ← h]

theorem mem_bucketGet_bucketOfPairs {α : Type} {ps : List (ℚ × α)} {k : ℚ} {v : α}
    (h : v ∈ bucketGet (bucketOfPairs ps) k) : (k, v) ∈ ps := by
  rw [bucketGet_bucketOfPairs] at h
  rw [List.mem_map] at h
  obtain ⟨p, hp, hp2⟩ := h
  rw [List.mem_filter] at hp
  have h1 : p.1 = k := of_decide_eq_true hp.2
  have h2 : p = (k, v) := by
    rw [← h1, ← hp2]
  rw [← h2]
  exact hp.1

theorem mem_layerBlock_roadBorder {roads : List Road} {conns : List (ℚ × List Conn)}
    {lr : List (ℚ × List Nat)} {L : ℚ} {ri : Nat}
    (h : Event.roadBorder ri ∈ layerBlock roads conns lr L) :
    ri ∈ bucketGet lr L := by
  unfold layerBlock at h
  dsimp only at h
  rcases List.mem_append.mp h with h | h
  · rcases List.mem_append.mp h with h | h
    · rcases List.mem_append.mp h with h | h
      · rcases List.mem_append.mp h with h | h
        · obtain ⟨a, ha, ha2⟩ := List.mem_map.mp h
          have hae : a = ri := Event.roadBorder.inj ha2
          rw [← hae]
          exact ((List.perm_insertionSort (prioLE roads) (bucketGet lr L)).mem_iff).mp ha
        · obtain ⟨c, hc, hc2⟩ := List.mem_map.mp h
          exact Event.noConfusion hc2
      · obtain ⟨a, ha, ha2⟩ := List.mem_map.mp h
        exact Event.noConfusion ha2
    · obtain ⟨c, hc, hc2⟩ := List.mem_map.mp h
      exact Event.noConfusion hc2
  · obtain ⟨a, ha, ha2⟩ := List.mem_map.mp h
    exact Event.noConfusion ha2

theorem mem_layerBlock_roadFill {roads : List Road} {conns : List (ℚ × List Conn)}
    {lr : List (ℚ × List Nat)} {L : ℚ} {ri : Nat}
    (h : Event.roadFill ri ∈ layerBlock roads conns lr L) :
    ri ∈ bucketGet lr L := by
  unfold layerBlock at h
  dsimp only at h
  rcases List.mem_append.mp h with h | h
  · rcases List.mem_append.mp h with h | h
    · rcases List.mem_append.mp h with h | h
      · rcases List.mem_append.mp h with h | h
        · obtain ⟨a, ha, ha2⟩ := List.mem_map.mp h
          exact Event.noConfusion ha2
        · obtain ⟨c, hc, hc2⟩ := List.mem_map.mp h
          exact Event.noConfusion hc2
      · obtain ⟨a, ha, ha2⟩ := List.mem_map.mp h
        have hae : a = ri := Event.roadFill.inj ha2
        rw [← hae]
        exact ((List.perm_insertionSort (prioLE roads) (bucketGet lr L)).mem_iff).mp ha
    · obtain ⟨c, hc, hc2⟩ := List.mem_map.mp h
      exact Event.noConfusion hc2
  · obtain ⟨a, ha, ha2⟩ := List.mem_map.mp h
    exact Event.noConfusion ha2

theorem mem_layerBlock_connBorder {roads : List Road} {conns : List (ℚ × List Conn)}
    {lr : List (ℚ × List Nat)} {L : ℚ} {nid : Nat}
    (h : Event.connBorder nid ∈ layerBlock roads conns lr L) :
    ∃ c ∈ bucketGet conns L, c.min_layer = L ∧ c.node = nid := by
  unfold layerBlock at h
  dsimp only at h
  rcases List.mem_append.mp h with h | h
  · rcases List.mem_append.mp h with h | h
    · rcases List.mem_append.mp h with h | h
      · rcases List.mem_append.mp h with h | h
        · obtain ⟨a, ha, ha2⟩ := List.mem_map.mp h
          exact Event.noConfusion ha2
        · obtain ⟨c, hc, hc2⟩ := List.mem_map.mp h
          rw [List.mem_filter] at hc
          exact ⟨c, hc.1, of_decide_eq_true hc.2, Event.connBorder.inj hc2⟩
      · obtain ⟨a, ha, ha2⟩ := List.mem_map.mp h
        exact Event.noConfusion ha2
    · obtain ⟨c, hc, hc2⟩ := List.mem_map.mp h
      exact Event.noConfusion hc2
  · obtain ⟨a, ha, ha2⟩ := List.mem_map.mp h
    exact Event.noConfusion ha2

theorem mem_layerBlock_connFill {roads : List Road} {conns : List (ℚ × List Conn)}
    {lr : List (ℚ × List Nat)} {L : ℚ} {nid : Nat}
    (h : Event.connFill nid ∈ layerBlock roads conns lr L) :
    ∃ c ∈ bucketGet conns L, c.max_layer = L ∧ c.node = nid := by
  unfold layerBlock at h
  dsimp only at h
  rcases List.mem_append.mp h with h | h
  · rcases List.mem_append.mp h with h | h
    · rcases List.mem_append.mp h with h | h
      · rcases List.mem_append.mp h with h | h
        · obtain ⟨a, ha, ha2⟩ := List.mem_map.mp h
          exact Event.noConfusion ha2
        · obtain ⟨c, hc, hc2⟩ := List.mem_map.mp h
          exact Event.noConfusion hc2
      · obtain ⟨a, ha, ha2⟩ := List.mem_map.mp h
        exact Event.noConfusion ha2
    · obtain ⟨c, hc, hc2⟩ := List.mem_map.mp h
      rw [List.mem_filter] at hc
      exact ⟨c, hc.1, of_decide_eq_true hc.2, Event.connFill.inj hc2⟩
  · obtain ⟨a, ha, ha2⟩ := List.mem_map.mp h
    exact Event.noConfusion ha2

theorem before_flatMap_split {layers l1 l2 : List ℚ} {block : ℚ → List Event}
    {b1 b2 : List Event} {L : ℚ} {tail : List Event} {x y : Event}
    (hl : layers = l1 ++ L :: l2) (hb : block L = b1 ++ b2)
    (hx2 : x ∉ b2) (hx3 : ∀ k ∈ l2, x ∉ block k) (hxt : x ∉ tail)
    (hy1 : y ∉ b1) (hy0 : ∀ k ∈ l1, y ∉ block k) :
    ∀ i j : Nat, (layers.flatMap block ++ tail)[i]? = some x →
      (layers.flatMap block ++ tail)[j]? = some y → i < j := by
  subst hl
  have hsplit : (l1 ++ L :: l2).flatMap block ++ tail
      = (l1.flatMap block ++ b1) ++ (b2 ++ (l2.flatMap block ++ tail)) := by
    rw [List.flatMap_append, List.flatMap_cons, hb]
    simp [List.append_assoc]
  rw [hsplit]
  apply before_append
  · intro hmem
    rcases List.mem_append.mp hmem with h | h
    · exact hx2 h
    · rcases List.mem_append.mp h with h | h
      · obtain ⟨k, hk, hk2⟩ := List.mem_flatMap.mp h
        exact hx3 k hk hk2
      · exact hxt h
  · intro hmem
    rcases List.mem_append.mp hmem with h | h
    · obtain ⟨k, hk, hk2⟩ := List.mem_flatMap.mp h
      exact hy0 k hk hk2
    · exact hy1 h

theorem layerRoads_keys_mem (roads : List Road) (L : ℚ) :
    L ∈ (layerRoads roads).map (fun kv => kv.1) ↔
      ∃ r, r < roads.length ∧ (roads.getD r defaultRoad).layer = L := by
  rw [layerRoads_eq, bucketOfPairs_keys_mem]
  constructor
  · intro h
    rw [List.mem_map] at h
    obtain ⟨p, hp, hp2⟩ := h
    rw [List.mem_map] at hp
    obtain ⟨q, hq, hq2⟩ := hp
    rw [List.mem_enum_iff_getElem?] at hq
    refine ⟨q.1, List.getElem?_eq_some_iff.mp hq |>.1, ?_⟩
    have hval : roads.getD q.1 defaultRoad = q.2 := by
      rw [List.getD_eq_getElem?_getD, hq]
      rfl
    rw [hval]
    rw [← hq2] at hp2
    exact hp2
  · rintro ⟨r, h1, h2⟩
    rw [List.mem_map]
    refine ⟨((roads.getD r defaultRoad).layer, r), ?_, h2⟩
    rw [List.mem_map]
    refine ⟨(r, roads.getD r defaultRoad), ?_, rfl⟩
    rw [List.mem_enum_iff_getElem?, List.getD_eq_getElem _ _ h1]
    exact List.getElem?_eq_getElem h1

theorem layerBlock_phases (roads : List Road) (conns : List (ℚ × List Conn))
    (lr : List (ℚ × List Nat)) (L : ℚ) :
    layerBlock roads conns lr L =
      (List.insertionSort (prioLE roads) (bucketGet lr L)).map Event.roadBorder
      ++ (((bucketGet conns L).filter (fun c => decide (c.min_layer = L))).map
            (fun c => Event.connBorder c.node)
        ++ ((List.insertionSort (prioLE roads) (bucketGet lr L)).map Event.roadFill
        ++ (((bucketGet conns L).filter (fun c => decide (c.max_layer = L))).map
              (fun c => Event.connFill c.node)
          ++ (List.insertionSort (prioLE roads) (bucketGet lr L)).map Event.laneSep))) := by
  unfold layerBlock
  dsimp only
  simp only [List.append_assoc]

theorem layerBlock_phases2 (roads : List Road) (conns : List (ℚ × List Conn))
    (lr : List (ℚ × List Nat)) (L : ℚ) :
    layerBlock roads conns lr L =
      ((List.insertionSort (prioLE roads) (bucketGet lr L)).map Event.roadBorder
        ++ ((bucketGet conns L).filter (fun c => decide (c.min_layer = L))).map
             (fun c => Event.connBorder c.node))
      ++ ((List.insertionSort (prioLE roads) (bucketGet lr L)).map Event.roadFill
        ++ (((bucketGet conns L).filter (fun c => decide (c.max_layer = L))).map
              (fun c => Event.connFill c.node)
          ++ (List.insertionSort (prioLE roads) (bucketGet lr L)).map Event.laneSep)) := by
  unfold layerBlock
  dsimp only
  simp only [List.append_assoc]

/-- Claim C7.  `Roads.draw` processes layer values in ascending order and,
within each layer, emits road borders (in matcher-priority order), then the
borders of connectors whose `min_layer` equals the layer, then road fills,
then the fills of connectors whose `max_layer` equals the layer, then lane
separators.  Consequently, for a node shared by exactly two roads with
`L` the smaller of the two layers: every border draw call of a road of
layer at most `L` comes strictly before every border draw call of the
node's connector; every border draw call of the connector comes strictly
before every fill draw call of a road of layer at least `L`; and every
border draw call of a road comes strictly before every fill draw call of
any road of greater-or-equal layer. -/
theorem draw_layer_ordering (rs : List Road) (flinger : Flinger) (cap : Bool)
    (nid ri1 i1 ri2 i2 : Nat)
    (hadj : (nid, [(ri1, i1), (ri2, i2)]) ∈ (mkNetwork rs).nodesAdj)
    (evs : List Event) (hevs : evs = ((mkNetwork rs).draw flinger cap).1)
    (L : ℚ)
    (hL : L = min (rs.getD ri1 defaultRoad).layer (rs.getD ri2 defaultRoad).layer) :
    (∀ rb, rb < rs.length → (rs.getD rb defaultRoad).layer ≤ L →
      ∀ i j : Nat, evs[i]? = some (Event.roadBorder rb) →
        evs[j]? = some (Event.connBorder nid) → i < j) ∧
    (∀ rf, rf < rs.length → L ≤ (rs.getD rf defaultRoad).layer →
      ∀ i j : Nat, evs[i]? = some (Event.connBorder nid) →
        evs[j]? = some (Event.roadFill rf) → i < j) ∧
    (∀ ra rb, ra < rs.length → rb < rs.length →
      (rs.getD ra defaultRoad).layer ≤ (rs.getD rb defaultRoad).layer →
      ∀ i j : Nat, evs[i]? = some (Event.roadBorder ra) →
        evs[j]? = some (Event.roadFill rb) → i < j) := by
  rcases hrs : rs with _ | ⟨r0, rt⟩
  · subst hrs
    exact absurd hadj (by simp [mkNetwork])
  subst hrs
  have hroads : (mkNetwork (r0 :: rt)).roads = r0 :: rt := mkNetwork_roads _
  have hdraw := network_draw_eq (mkNetwork (r0 :: rt)) flinger cap r0 rt hroads
  rw [hdraw] at hevs
  rcases hRC : resolveAll (mkNetwork (r0 :: rt)) flinger
    (flinger.scaleAt ((r0.nodes.getD 0 defaultNode).coordinates)) with ⟨R, C⟩
  rw [hRC, hroads] at hevs
  dsimp only at hevs
  have hC : C = bucketOfPairs (connPairs (r0 :: rt) flinger
      (flinger.scaleAt ((r0.nodes.getD 0 defaultNode).coordinates))
      (mkNetwork (r0 :: rt)).nodesAdj) := by
    have h1 := resolveAll_snd_eq (mkNetwork (r0 :: rt)) flinger
      (flinger.scaleAt ((r0.nodes.getD 0 defaultNode).coordinates))
    rw [hRC, hroads] at h1
    exact h1
  obtain ⟨c, hcres, hcnode, hcmin, hcmax⟩ := resolveNode_two (r0 :: rt) flinger
    (flinger.scaleAt ((r0.nodes.getD 0 defaultNode).coordinates)) nid ri1 i1 ri2 i2
  have hcminL : c.min_layer = L := by rw [hcmin, hL]
  have factA : ∀ k : ℚ,
      Event.connBorder nid ∈ layerBlock R C (layerRoads (r0 :: rt)) k → k = L := by
    intro k hk
    obtain ⟨c', hc', hmin', hnode'⟩ := mem_layerBlock_connBorder hk
    rw [hC] at hc'
    have hpair := mem_bucketGet_bucketOfPairs hc'
    have huniq := connPairs_node_eq (mkNetwork_keys_nodup (r0 :: rt)) hadj hcres hpair hnode'
    have hcc : c' = c := huniq.1
    rw [← hmin', hcc, hcminL]
  have factB : ∀ (r : Nat) (k : ℚ),
      Event.roadBorder r ∈ layerBlock R C (layerRoads (r0 :: rt)) k →
        r < (r0 :: rt).length ∧ ((r0 :: rt).getD r defaultRoad).layer = k := by
    intro r k hk
    exact (mem_bucketGet_layerRoads _ _ _).mp (mem_layerBlock_roadBorder hk)
  have factBf : ∀ (r : Nat) (k : ℚ),
      Event.roadFill r ∈ layerBlock R C (layerRoads (r0 :: rt)) k →
        r < (r0 :: rt).length ∧ ((r0 :: rt).getD r defaultRoad).layer = k := by
    intro r k hk
    exact (mem_bucketGet_layerRoads _ _ _).mp (mem_layerBlock_roadFill hk)
  have hperm := List.perm_insertionSort (fun a b : ℚ => a ≤ b)
    ((layerRoads (r0 :: rt)).map (fun kv => kv.1))
  have hsorted := List.sorted_insertionSort (fun a b : ℚ => a ≤ b)
    ((layerRoads (r0 :: rt)).map (fun kv => kv.1))
  have hkeysnd : ((layerRoads (r0 :: rt)).map (fun kv => kv.1)).Nodup := by
    rw [layerRoads_eq]
    exact bucketOfPairs_keys_nodup _
  have hlayersnd := (hperm.nodup_iff).mpr hkeysnd
  have hmemlayers : ∀ k : ℚ,
      k ∈ List.insertionSort (fun a b : ℚ => a ≤ b)
        ((layerRoads (r0 :: rt)).map (fun kv => kv.1)) ↔
      ∃ r, r < (r0 :: rt).length ∧ ((r0 :: rt).getD r defaultRoad).layer = k :=
    fun k => (hperm.mem_iff).trans (layerRoads_keys_mem _ k)
  have hri1 : ri1 < (r0 :: rt).length := mkNetwork_adjVal (r0 :: rt) _ hadj (ri1, i1) (by simp)
  have hri2 : ri2 < (r0 :: rt).length := mkNetwork_adjVal (r0 :: rt) _ hadj (ri2, i2) (by simp)
  have hLmem : L ∈ List.insertionSort (fun a b : ℚ => a ≤ b)
      ((layerRoads (r0 :: rt)).map (fun kv => kv.1)) := by
    refine (hmemlayers L).mpr ?_
    rcases le_total ((r0 :: rt).getD ri1 defaultRoad).layer
      ((r0 :: rt).getD ri2 defaultRoad).layer with hle | hle
    · exact ⟨ri1, hri1, by rw [hL, min_eq_left hle]⟩
    · exact ⟨ri2, hri2, by rw [hL, min_eq_right hle]⟩
  obtain ⟨l1, l2, hsplit, hlt, hgt⟩ := sorted_nodup_split hsorted hlayersnd hLmem
  refine ⟨?_, ?_, ?_⟩
  · intro rb hrb hlay i j hi hj
    rw [hevs] at hi hj
    refine before_flatMap_split hsplit
      (layerBlock_phases R C (layerRoads (r0 :: rt)) L) ?_ ?_ ?_ ?_ ?_ i j hi hj
    · simp
    · intro k hk hmem
      have hB := factB rb k hmem
      exact absurd (hB.2 ▸ hlay) (not_le.mpr (hgt k hk))
    · cases cap <;> simp
    · simp
    · intro k hk hmem
      exact absurd (factA k hmem) (ne_of_lt (hlt k hk))
  · intro rf hrf hlay i j hi hj
    rw [hevs] at hi hj
    refine before_flatMap_split hsplit
      (layerBlock_phases2 R C (layerRoads (r0 :: rt)) L) ?_ ?_ ?_ ?_ ?_ i j hi hj
    · simp
    · intro k hk hmem
      exact absurd (factA k hmem) (ne_of_gt (hgt k hk))
    · cases cap <;> simp
    · simp
    · intro k hk hmem
      have hB := factBf rf k hmem
      exact absurd (hB.2 ▸ hlay) (not_le.mpr (hlt k hk))
  · intro ra rb hra hrb hlay i j hi hj
    rw [hevs] at hi hj
    have hL2mem : ((r0 :: rt).getD rb defaultRoad).layer ∈
        List.insertionSort (fun a b : ℚ => a ≤ b)
          ((layerRoads (r0 :: rt)).map (fun kv => kv.1)) :=
      (hmemlayers _).mpr ⟨rb, hrb, rfl⟩
    obtain ⟨m1, m2, hsplit2, hlt2, hgt2⟩ := sorted_nodup_split hsorted hlayersnd hL2mem
    refine before_flatMap_split hsplit2
      (layerBlock_phases R C (layerRoads (r0 :: rt))
        ((r0 :: rt).getD rb defaultRoad).layer) ?_ ?_ ?_ ?_ ?_ i j hi hj
    · simp
    · intro k hk hmem
      have hB := factB ra k hmem
      exact absurd (hB.2 ▸ hlay) (not_le.mpr (hgt2 k hk))
    · cases cap <;> simp
    · simp
    · intro k hk hmem
      have hB := factBf rb k hmem
      exact absurd hB.2.symm (ne_of_lt (hlt2 k hk))

/-- A layer-0 road into the shared node 2. -/
noncomputable def c7RoadA : Road :=
  { tags := [], nodes := [⟨1, ((0 : ℝ), (0 : ℝ))⟩, ⟨2, ((10 : ℝ), (0 : ℝ))⟩],
    matcher := ⟨1, 1⟩, line := [((0 : ℝ), (0 : ℝ)), ((10 : ℝ), (0 : ℝ))],
    width := 6, laneRefs := [], laneHeap := [], layer := 0 }

/-- A layer-1 road out of the shared node 2, same width. -/
noncomputable def c7RoadB : Road :=
  { tags := [], nodes := [⟨2, ((10 : ℝ), (0 : ℝ))⟩, ⟨3, ((20 : ℝ), (0 : ℝ))⟩],
    matcher := ⟨1, 1⟩, line := [((10 : ℝ), (0 : ℝ)), ((20 : ℝ), (0 : ℝ))],
    width := 6, laneRefs := [], laneHeap := [], layer := 1 }

theorem draw_layer_ordering_witness :
    (∀ rb, rb < [c7RoadA, c7RoadB].length →
        ([c7RoadA, c7RoadB].getD rb defaultRoad).layer ≤ 0 →
        ∀ i j : Nat,
          (((mkNetwork [c7RoadA, c7RoadB]).draw idFlinger false).1)[i]? =
            some (Event.roadBorder rb) →
          (((mkNetwork [c7RoadA, c7RoadB]).draw idFlinger false).1)[j]? =
            some (Event.connBorder 2) → i < j) ∧
    (∀ rf, rf < [c7RoadA, c7RoadB].length →
        0 ≤ ([c7RoadA, c7RoadB].getD rf defaultRoad).layer →
        ∀ i j : Nat,
          (((mkNetwork [c7RoadA, c7RoadB]).draw idFlinger false).1)[i]? =
            some (Event.connBorder 2) →
          (((mkNetwork [c7RoadA, c7RoadB]).draw idFlinger false).1)[j]? =
            some (Event.roadFill rf) → i < j) ∧
    (∀ ra rb, ra < [c7RoadA, c7RoadB].length → rb < [c7RoadA, c7RoadB].length →
        ([c7RoadA, c7RoadB].getD ra defaultRoad).layer ≤
          ([c7RoadA, c7RoadB].getD rb defaultRoad).layer →
        ∀ i j : Nat,
          (((mkNetwork [c7RoadA, c7RoadB]).draw idFlinger false).1)[i]? =
            some (Event.roadBorder ra) →
          (((mkNetwork [c7RoadA, c7RoadB]).draw idFlinger false).1)[j]? =
            some (Event.roadFill rb) → i < j) :=
  draw_layer_ordering [c7RoadA, c7RoadB] idFlinger false 2 0 1 1 0 (by decide)
    _ rfl 0 (by decide)

theorem count_flatMap {α β : Type} [BEq β] (f : α → List β) (x : β) (l : List α) :
    List.count x (l.flatMap f) = (l.map (fun a => List.count x (f a))).sum := by
  induction l with
  | nil => rfl
  | cons a t ih =>
    rw [List.flatMap_cons, List.count_append, List.map_cons, List.sum_cons, ih]

theorem sum_map_ite_count (l : List ℚ) (a : ℚ) :
    (l.map (fun x => if a = x then (1 : Nat) else 0)).sum = l.count a := by
  induction l with
  | nil => rfl
  | cons b t ih =>
    rw [List.map_cons, List.sum_cons, ih, List.count_cons]
    by_cases h : a = b
    · simp [h]
      omega
    · have h2 : (b == a) = false := by
        simp only [beq_eq_false_iff_ne, ne_eq]
        exact fun hh => h hh.symm
      simp [h, h2]

theorem sum_map_add_nat {α : Type} (l : List α) (f g : α → Nat) :
    (l.map (fun x => f x + g x)).sum = (l.map f).sum + (l.map g).sum := by
  induction l with
  | nil => rfl
  | cons a t ih =>
    rw [List.map_cons, List.map_cons, List.map_cons, List.sum_cons, List.sum_cons,
      List.sum_cons, ih]
    omega

theorem sum_map_ite_and (l : List ℚ) (hnd : l.Nodup) (u v : ℚ) (hv : v ∈ l) :
    (l.map (fun L => if u = L ∧ v = L then (1 : Nat) else 0)).sum =
      if u = v then 1 else 0 := by
  by_cases huv : u = v
  · subst huv
    have hfg : (fun L => if u = L ∧ u = L then (1 : Nat) else 0) =
        fun L => if u = L then 1 else 0 := by
      funext L
      by_cases h : u = L <;> simp [h]
    rw [hfg, sum_map_ite_count l u, if_pos rfl, List.count_eq_one_of_mem hnd hv]
  · have hfg : (fun L => if u = L ∧ v = L then (1 : Nat) else 0) = fun _ => 0 := by
      funext L
      rw [if_neg]
      rintro ⟨h1, h2⟩
      exact huv (h1.trans h2.symm)
    rw [hfg, if_neg huv]
    simp

theorem count_map_eq_countP {α β : Type} [DecidableEq β] (f : α → β) (x : β) (l : List α) :
    List.count x (l.map f) = List.countP (fun a => decide (f a = x)) l := by
  induction l with
  | nil => rfl
  | cons a t ih =>
    rw [List.map_cons, List.count_cons, ih, List.countP_cons]
    congr 1

theorem count_connBorder_layerBlock (roads : List Road) (conns : List (ℚ × List Conn))
    (lr : List (ℚ × List Nat)) (L : ℚ) (nid : Nat) :
    List.count (Event.connBorder nid) (layerBlock roads conns lr L) =
      List.countP (fun c => decide (c.min_layer = L) && decide (c.node = nid))
        (bucketGet conns L) := by
  unfold layerBlock
  dsimp only
  rw [List.count_append, List.count_append, List.count_append, List.count_append]
  rw [show List.count (Event.connBorder nid)
      ((List.insertionSort (prioLE roads) (bucketGet lr L)).map Event.roadBorder) = 0 from
    List.count_eq_zero.mpr (by simp)]
  rw [show List.count (Event.connBorder nid)
      ((List.insertionSort (prioLE roads) (bucketGet lr L)).map Event.roadFill) = 0 from
    List.count_eq_zero.mpr (by simp)]
  rw [show List.count (Event.connBorder nid)
      (((bucketGet conns L).filter (fun c => decide (c.max_layer = L))).map
        (fun c => Event.connFill c.node)) = 0 from
    List.count_eq_zero.mpr (by simp)]
  rw [show List.count (Event.connBorder nid)
      ((List.insertionSort (prioLE roads) (bucketGet lr L)).map Event.laneSep) = 0 from
    List.count_eq_zero.mpr (by simp)]
  rw [count_map_eq_countP, List.countP_filter]
  rw [show (fun c => decide (Event.connBorder c.node = Event.connBorder nid) &&
      decide (c.min_layer = L)) = fun c : Conn =>
      decide (c.min_layer = L) && decide (c.node = nid) from by
    funext c
    by_cases h1 : c.node = nid <;> by_cases h2 : c.min_layer = L <;> simp [h1, h2]]
  omega

theorem count_connFill_layerBlock (roads : List Road) (conns : List (ℚ × List Conn))
    (lr : List (ℚ × List Nat)) (L : ℚ) (nid : Nat) :
    List.count (Event.connFill nid) (layerBlock roads conns lr L) =
      List.countP (fun c => decide (c.max_layer = L) && decide (c.node = nid))
        (bucketGet conns L) := by
  unfold layerBlock
  dsimp only
  rw [List.count_append, List.count_append, List.count_append, List.count_append]
  rw [show List.count (Event.connFill nid)
      ((List.insertionSort (prioLE roads) (bucketGet lr L)).map Event.roadBorder) = 0 from
    List.count_eq_zero.mpr (by simp)]
  rw [show List.count (Event.connFill nid)
      ((List.insertionSort (prioLE roads) (bucketGet lr L)).map Event.roadFill) = 0 from
    List.count_eq_zero.mpr (by simp)]
  rw [show List.count (Event.connFill nid)
      (((bucketGet conns L).filter (fun c => decide (c.min_layer = L))).map
        (fun c => Event.connBorder c.node)) = 0 from
    List.count_eq_zero.mpr (by simp)]
  rw [show List.count (Event.connFill nid)
      ((List.insertionSort (prioLE roads) (bucketGet lr L)).map Event.laneSep) = 0 from
    List.count_eq_zero.mpr (by simp)]
  rw [count_map_eq_countP, List.countP_filter]
  rw [show (fun c => decide (Event.connFill c.node = Event.connFill nid) &&
      decide (c.max_layer = L)) = fun c : Conn =>
      decide (c.max_layer = L) && decide (c.node = nid) from by
    funext c
    by_cases h1 : c.node = nid <;> by_cases h2 : c.max_layer = L <;> simp [h1, h2]]
  omega

theorem countP_bucketGet_bucketOfPairs {α : Type} (ps : List (ℚ × α)) (L : ℚ)
    (q : α → Bool) :
    List.countP q (bucketGet (bucketOfPairs ps) L) =
      List.countP (fun p => q p.2 && decide (p.1 = L)) ps := by
  rw [bucketGet_bucketOfPairs, List.countP_map, List.countP_filter]
  rfl

theorem connPairs_append (roads : List Road) (f : Flinger) (s : ℚ)
    (a1 a2 : List (Nat × List (Nat × Nat))) :
    connPairs roads f s (a1 ++ a2) = connPairs roads f s a1 ++ connPairs roads f s a2 := by
  unfold connPairs
  rw [List.flatMap_append]

theorem connPairs_cons (roads : List Road) (f : Flinger) (s : ℚ)
    (e : Nat × List (Nat × Nat)) (a : List (Nat × List (Nat × Nat))) :
    connPairs roads f s (e :: a) =
      (match (resolveNode roads f s e.1 e.2).1 with
        | none => []
        | some c => [(c.min_layer, c), (c.max_layer, c)]) ++ connPairs roads f s a := by
  unfold connPairs
  rw [List.flatMap_cons]

theorem count_conn_event_draw (x : Event) (sel : Conn → ℚ) (nid : Nat)
    (R : List Road) (C : List (ℚ × List Conn)) (lr : List (ℚ × List Nat))
    (layers : List ℚ) (tail : List Event)
    (hblock : ∀ L, List.count x (layerBlock R C lr L) =
      List.countP (fun c => decide (sel c = L) && decide (c.node = nid)) (bucketGet C L))
    (htail : List.count x tail = 0)
    (ps1 ps2 : List (ℚ × Conn)) (c : Conn)
    (hC : C = bucketOfPairs (ps1 ++ ([(c.min_layer, c), (c.max_layer, c)] ++ ps2)))
    (hcnode : c.node = nid)
    (h1 : ∀ p ∈ ps1, p.2.node ≠ nid) (h2 : ∀ p ∈ ps2, p.2.node ≠ nid)
    (hnd : layers.Nodup)
    (hminmem : c.min_layer ∈ layers) (hmaxmem : c.max_layer ∈ layers) :
    List.count x (layers.flatMap (layerBlock R C lr) ++ tail) =
      (if sel c = c.min_layer then 1 else 0) +
      (if sel c = c.max_layer then 1 else 0) := by
  rw [List.count_append, htail, Nat.add_zero, count_flatMap]
  have hfg : (fun L => List.count x (layerBlock R C lr L)) =
      fun L => (if sel c = L ∧ c.min_layer = L then (1 : Nat) else 0) +
        (if sel c = L ∧ c.max_layer = L then 1 else 0) := by
    funext L
    rw [hblock L, hC, countP_bucketGet_bucketOfPairs, List.countP_append,
      List.countP_append]
    rw [show List.countP
        (fun p => (decide (sel p.2 = L) && decide (p.2.node = nid)) && decide (p.1 = L))
        ps1 = 0 from List.countP_eq_zero.mpr (by
      intro p hp hpred
      simp only [Bool.and_eq_true, decide_eq_true_eq] at hpred
      exact h1 p hp hpred.1.2)]
    rw [show List.countP
        (fun p => (decide (sel p.2 = L) && decide (p.2.node = nid)) && decide (p.1 = L))
        ps2 = 0 from List.countP_eq_zero.mpr (by
      intro p hp hpred
      simp only [Bool.and_eq_true, decide_eq_true_eq] at hpred
      exact h2 p hp hpred.1.2)]
    rw [List.countP_cons, List.countP_cons, List.countP_nil]
    by_cases hs : sel c = L <;> by_cases hm : c.min_layer = L <;>
      by_cases hx2 : c.max_layer = L <;> simp [hs, hm, hx2, hcnode]
  rw [hfg, sum_map_add_nat, sum_map_ite_and layers hnd _ _ hminmem,
    sum_map_ite_and layers hnd _ _ hmaxmem]

/-- Claim C8 (amended).  The resolution loop of `Roads.draw` registers every
built connector unconditionally in its `min_layer` bucket and then again in
its `max_layer` bucket, so a connector whose two roads share one layer
appears twice in that single bucket: its border pass and its fill pass are
each emitted twice per call when the layers are equal, and exactly once
each otherwise. -/
theorem connector_bucket_emission_counts (rs : List Road) (flinger : Flinger) (cap : Bool)
    (nid ri1 i1 ri2 i2 : Nat)
    (hadj : (nid, [(ri1, i1), (ri2, i2)]) ∈ (mkNetwork rs).nodesAdj)
    (evs : List Event) (hevs : evs = ((mkNetwork rs).draw flinger cap).1) :
    List.count (Event.connBorder nid) evs =
      (if (rs.getD ri1 defaultRoad).layer = (rs.getD ri2 defaultRoad).layer
       then 2 else 1) ∧
    List.count (Event.connFill nid) evs =
      (if (rs.getD ri1 defaultRoad).layer = (rs.getD ri2 defaultRoad).layer
       then 2 else 1) := by
  rcases hrs : rs with _ | ⟨r0, rt⟩
  · subst hrs
    exact absurd hadj (by simp [mkNetwork])
  subst hrs
  have hroads : (mkNetwork (r0 :: rt)).roads = r0 :: rt := mkNetwork_roads _
  have hdraw := network_draw_eq (mkNetwork (r0 :: rt)) flinger cap r0 rt hroads
  rw [hdraw] at hevs
  rcases hRC : resolveAll (mkNetwork (r0 :: rt)) flinger
    (flinger.scaleAt ((r0.nodes.getD 0 defaultNode).coordinates)) with ⟨R, C⟩
  rw [hRC, hroads] at hevs
  dsimp only at hevs
  have hC : C = bucketOfPairs (connPairs (r0 :: rt) flinger
      (flinger.scaleAt ((r0.nodes.getD 0 defaultNode).coordinates))
      (mkNetwork (r0 :: rt)).nodesAdj) := by
    have h1 := resolveAll_snd_eq (mkNetwork (r0 :: rt)) flinger
      (flinger.scaleAt ((r0.nodes.getD 0 defaultNode).coordinates))
    rw [hRC, hroads] at h1
    exact h1
  obtain ⟨c, hcres, hcnode, hcmin, hcmax⟩ := resolveNode_two (r0 :: rt) flinger
    (flinger.scaleAt ((r0.nodes.getD 0 defaultNode).coordinates)) nid ri1 i1 ri2 i2
  obtain ⟨a1, a2, hadjsplit⟩ := List.append_of_mem hadj
  have hknd := mkNetwork_keys_nodup (r0 :: rt)
  rw [hadjsplit, List.map_append, List.map_cons, List.nodup_append] at hknd
  have hnid_a1 : nid ∉ a1.map (fun e => e.1) := by
    intro hmem
    exact hknd.2.2 hmem (by simp)
  have hnid_a2 : nid ∉ a2.map (fun e => e.1) := by
    have h3 := hknd.2.1
    rw [List.nodup_cons] at h3
    exact h3.1
  have hCsplit : C = bucketOfPairs
      (connPairs (r0 :: rt) flinger
          (flinger.scaleAt ((r0.nodes.getD 0 defaultNode).coordinates)) a1
        ++ ([(c.min_layer, c), (c.max_layer, c)]
          ++ connPairs (r0 :: rt) flinger
              (flinger.scaleAt ((r0.nodes.getD 0 defaultNode).coordinates)) a2)) := by
    rw [hC, hadjsplit, connPairs_append, connPairs_cons]
    dsimp only
    rw [hcres]
  have h1s : ∀ p ∈ connPairs (r0 :: rt) flinger
      (flinger.scaleAt ((r0.nodes.getD 0 defaultNode).coordinates)) a1,
      p.2.node ≠ nid := by
    intro p hp hnode
    exact hnid_a1 (hnode ▸ connPairs_node_mem_keys hp)
  have h2s : ∀ p ∈ connPairs (r0 :: rt) flinger
      (flinger.scaleAt ((r0.nodes.getD 0 defaultNode).coordinates)) a2,
      p.2.node ≠ nid := by
    intro p hp hnode
    exact hnid_a2 (hnode ▸ connPairs_node_mem_keys hp)
  have hperm := List.perm_insertionSort (fun a b : ℚ => a ≤ b)
    ((layerRoads (r0 :: rt)).map (fun kv => kv.1))
  have hkeysnd : ((layerRoads (r0 :: rt)).map (fun kv => kv.1)).Nodup := by
    rw [layerRoads_eq]
    exact bucketOfPairs_keys_nodup _
  have hlayersnd := (hperm.nodup_iff).mpr hkeysnd
  have hmemlayers : ∀ k : ℚ,
      k ∈ List.insertionSort (fun a b : ℚ => a ≤ b)
        ((layerRoads (r0 :: rt)).map (fun kv => kv.1)) ↔
      ∃ r, r < (r0 :: rt).length ∧ ((r0 :: rt).getD r defaultRoad).layer = k :=
    fun k => (hperm.mem_iff).trans (layerRoads_keys_mem _ k)
  have hri1 : ri1 < (r0 :: rt).length :=
    mkNetwork_adjVal (r0 :: rt) _ hadj (ri1, i1) (by simp)
  have hri2 : ri2 < (r0 :: rt).length :=
    mkNetwork_adjVal (r0 :: rt) _ hadj (ri2, i2) (by simp)
  have hminmem : c.min_layer ∈ List.insertionSort (fun a b : ℚ => a ≤ b)
      ((layerRoads (r0 :: rt)).map (fun kv => kv.1)) := by
    refine (hmemlayers _).mpr ?_
    rcases le_total ((r0 :: rt).getD ri1 defaultRoad).layer
      ((r0 :: rt).getD ri2 defaultRoad).layer with hle | hle
    · exact ⟨ri1, hri1, by rw [hcmin, min_eq_left hle]⟩
    · exact ⟨ri2, hri2, by rw [hcmin, min_eq_right hle]⟩
  have hmaxmem : c.max_layer ∈ List.insertionSort (fun a b : ℚ => a ≤ b)
      ((layerRoads (r0 :: rt)).map (fun kv => kv.1)) := by
    refine (hmemlayers _).mpr ?_
    rcases le_total ((r0 :: rt).getD ri1 defaultRoad).layer
      ((r0 :: rt).getD ri2 defaultRoad).layer with hle | hle
    · exact ⟨ri2, hri2, by rw [hcmax, max_eq_right hle]⟩
    · exact ⟨ri1, hri1, by rw [hcmax, max_eq_left hle]⟩
  have hminmax : (((r0 :: rt).getD ri1 defaultRoad).layer =
      ((r0 :: rt).getD ri2 defaultRoad).layer) ↔ c.min_layer = c.max_layer := by
    constructor
    · intro heq
      rw [hcmin, hcmax, heq, min_self, max_self]
    · intro hmm
      rw [hcmin, hcmax] at hmm
      rcases le_total ((r0 :: rt).getD ri1 defaultRoad).layer
        ((r0 :: rt).getD ri2 defaultRoad).layer with hle | hle
      · rw [min_eq_left hle, max_eq_right hle] at hmm
        exact hmm
      · rw [min_eq_right hle, max_eq_left hle] at hmm
        exact hmm.symm
  constructor
  · rw [hevs]
    rw [count_conn_event_draw (Event.connBorder nid) (fun cc => cc.min_layer) nid R C
      (layerRoads (r0 :: rt))
      (List.insertionSort (fun a b : ℚ => a ≤ b)
        ((layerRoads (r0 :: rt)).map (fun kv => kv.1)))
      (if cap then (List.range (r0 :: rt).length).map Event.caption else [])
      (fun L => count_connBorder_layerBlock R C (layerRoads (r0 :: rt)) L nid)
      (by cases cap <;> simp [List.count_eq_zero]) _ _ c hCsplit hcnode h1s h2s
      hlayersnd hminmem hmaxmem]
    rw [if_pos rfl]
    by_cases heq : ((r0 :: rt).getD ri1 defaultRoad).layer =
        ((r0 :: rt).getD ri2 defaultRoad).layer
    · rw [if_pos heq, if_pos (hminmax.mp heq)]
    · rw [if_neg heq, if_neg (fun hmm => heq (hminmax.mpr hmm))]
  · rw [hevs]
    rw [count_conn_event_draw (Event.connFill nid) (fun cc => cc.max_layer) nid R C
      (layerRoads (r0 :: rt))
      (List.insertionSort (fun a b : ℚ => a ≤ b)
        ((layerRoads (r0 :: rt)).map (fun kv => kv.1)))
      (if cap then (List.range (r0 :: rt).length).map Event.caption else [])
      (fun L => count_connFill_layerBlock R C (layerRoads (r0 :: rt)) L nid)
      (by cases cap <;> simp [List.count_eq_zero]) _ _ c hCsplit hcnode h1s h2s
      hlayersnd hminmem hmaxmem]
    rw [if_pos rfl]
    by_cases heq : ((r0 :: rt).getD ri1 defaultRoad).layer =
        ((r0 :: rt).getD ri2 defaultRoad).layer
    · rw [if_pos heq, if_pos ((hminmax.mp heq).symm)]
    · rw [if_neg heq, if_neg (fun hmm => heq (hminmax.mpr hmm.symm))]

/-- Two equal-width, equal-layer roads sharing node 2. -/
noncomputable def c8RoadA : Road :=
  { tags := [], nodes := [⟨1, ((0 : ℝ), (0 : ℝ))⟩, ⟨2, ((10 : ℝ), (0 : ℝ))⟩],
    matcher := ⟨1, 1⟩, line := [((0 : ℝ), (0 : ℝ)), ((10 : ℝ), (0 : ℝ))],
    width := 6, laneRefs := [], laneHeap := [], layer := 0 }

noncomputable def c8RoadB : Road :=
  { tags := [], nodes := [⟨2, ((10 : ℝ), (0 : ℝ))⟩, ⟨3, ((20 : ℝ), (0 : ℝ))⟩],
    matcher := ⟨1, 1⟩, line := [((10 : ℝ), (0 : ℝ)), ((20 : ℝ), (0 : ℝ))],
    width := 6, laneRefs := [], laneHeap := [], layer := 0 }

/-- Claim C8, counterexample.  For two roads of one common layer sharing a
node, the connector is registered twice in the one layer bucket
(`min_layer` and `max_layer` coincide), so one call of `Roads.draw` emits
its border pass twice and its fill pass twice — not exactly once as
claimed. -/
theorem connector_single_bucket_refuted :
    List.count (Event.connBorder 2)
        ((mkNetwork [c8RoadA, c8RoadB]).draw idFlinger false).1 = 2 ∧
    List.count (Event.connFill 2)
        ((mkNetwork [c8RoadA, c8RoadB]).draw idFlinger false).1 = 2 := by
  constructor <;> rfl

theorem connector_bucket_emission_counts_witness :
    List.count (Event.connBorder 2)
        ((mkNetwork [c8RoadA, c8RoadB]).draw idFlinger false).1 =
      (if ([c8RoadA, c8RoadB].getD 0 defaultRoad).layer =
          ([c8RoadA, c8RoadB].getD 1 defaultRoad).layer then 2 else 1) ∧
    List.count (Event.connFill 2)
        ((mkNetwork [c8RoadA, c8RoadB]).draw idFlinger false).1 =
      (if ([c8RoadA, c8RoadB].getD 0 defaultRoad).layer =
          ([c8RoadA, c8RoadB].getD 1 defaultRoad).layer then 2 else 1) :=
  connector_bucket_emission_counts [c8RoadA, c8RoadB] idFlinger false 2 0 1 1 0
    (by decide) _ rfl
